import Mathlib

/-!
Shallow embedding of the load-balancer simulation engine
(`src/lib/sim/simulator.ts`, `src/lib/sim/types.ts`, the workload table and
the routing-algorithm registry) in Lean 4.

JavaScript numbers are modelled by `ℚ`; integer counters by `ℕ`.  The
mutable object store holding `Request` objects is made explicit as a heap
`ℕ → Request` keyed by request id: containers (load-balancer queues, server
queues, in-flight lists) hold request ids, and in-place mutation of a
request object becomes a heap update.  This mirrors the source's shallow
cloning (`cloneServer` / `cloneLb` copy the arrays but share the `Request`
objects).
-/

set_option maxRecDepth 8192

/- `Rat.add`/`Rat.sub`/`Rat.mul`/`Rat.inv` are shipped `@[irreducible]`,
which blocks `decide`'s evaluator on concrete rational arithmetic; restore
the default reducibility (this affects elaboration only, not soundness). -/
set_option allowUnsafeReducibility true
attribute [semireducible] Rat.add Rat.sub Rat.mul Rat.inv

/-- `AlgorithmId` from `types.ts`. -/
inductive AlgorithmId where
  | roundRobin
  | leastConnections
  | weightedRoundRobin
  | ewma
  | p2c
  deriving DecidableEq, Repr

/-- `WorkloadId` from `types.ts`. -/
inductive WorkloadId where
  | steady
  | burst
  deriving DecidableEq, Repr

/-- `RequestStatus` from `types.ts`. -/
inductive RequestStatus where
  | arrived
  | lbQueued
  | serverQueued
  | processing
  | completed
  | failed
  deriving DecidableEq, Repr

/-- `ServerHealth` from `types.ts`. -/
inductive ServerHealth where
  | UP
  | SLOW
  | DOWN
  deriving DecidableEq, Repr

/-- `Request` from `types.ts`; optional fields become `Option`. -/
structure Request where
  id : ℕ
  arrivalTimeMs : ℚ
  lbQueueEnterMs : Option ℚ := none
  lbQueueExitMs : Option ℚ := none
  serverQueueEnterMs : Option ℚ := none
  serverQueueExitMs : Option ℚ := none
  startProcessingMs : Option ℚ := none
  endTimeMs : Option ℚ := none
  serviceTimeMs : Option ℚ := none
  remainingTimeMs : Option ℚ := none
  serverId : Option String := none
  lbId : Option String := none
  algorithmId : Option AlgorithmId := none
  decisionReason : Option String := none
  status : RequestStatus
  failureReason : Option String := none
  latencyMs : Option ℚ := none
  lbQueueWaitMs : Option ℚ := none
  serverQueueWaitMs : Option ℚ := none
  processingTimeMs : Option ℚ := none
  deriving DecidableEq, Repr

/-- The explicit request store: JavaScript's object memory for `Request`s. -/
def Heap : Type := ℕ → Request

/-- Placeholder value of unallocated heap cells. -/
def defaultRequest : Request := { id := 0, arrivalTimeMs := 0, status := .arrived }

/-- Write one request object into the store. -/
def hset (h : Heap) (i : ℕ) (r : Request) : Heap :=
  fun j => if j = i then r else h j

/-- `ServerState` from `types.ts`; `inflight`/`queue` hold request ids. -/
structure ServerState where
  id : String
  name : String
  health : ServerHealth
  baseLatencyMs : ℚ
  slowMultiplier : ℚ
  weight : ℚ
  maxConcurrentRequests : ℕ
  serverQueueSize : ℕ
  inflight : List ℕ
  queue : List ℕ
  totalProcessed : ℕ
  totalFailed : ℕ
  ewmaLatencyMs : ℚ
  circuitBreakerUntilMs : ℚ
  lastHealthChangeMs : ℚ
  deriving DecidableEq, Repr

/-- `LoadBalancerState` from `types.ts`; the health snapshot is the entry
list produced by `Object.fromEntries`, looked up with last-entry-wins. -/
structure LoadBalancerState where
  id : String
  name : String
  isUp : Bool
  maxConnectionsPerSecond : ℚ
  maxConcurrentConnections : ℕ
  queueSize : ℕ
  droppedRequests : ℕ
  queue : List ℕ
  activeConnections : ℕ
  routingAlgorithm : AlgorithmId
  healthIntervalMs : ℚ
  lastHealthCheckMs : ℚ
  healthSnapshot : List (String × Bool)
  deriving DecidableEq, Repr

/-- `LogEntry` from `types.ts`. -/
structure LogEntry where
  id : ℕ
  timeMs : ℚ
  status : RequestStatus
  message : String
  serverId : Option String := none
  lbId : Option String := none
  deriving DecidableEq, Repr

/-- `MetricsPoint` from `types.ts`. -/
structure MetricsPoint where
  timeMs : ℚ
  avgLatencyMs : ℚ
  p95LatencyMs : ℚ
  lbQueueDepth : ℕ
  serverQueueDepth : ℕ
  inflight : ℕ
  failureRate : ℚ
  dropsLb : ℕ
  dropsServer : ℕ
  avgLbWaitMs : ℚ
  avgServerWaitMs : ℚ
  deriving DecidableEq, Repr

/-- The running totals record of `SimulationState`. -/
structure Totals where
  completed : ℕ
  failed : ℕ
  started : ℕ
  droppedLb : ℕ
  droppedServer : ℕ
  deriving DecidableEq, Repr

/-- `SimulationState` from `types.ts` (requests live in the heap). -/
structure SimulationState where
  timeMs : ℚ
  tickMs : ℚ
  nextRequestId : ℕ
  pendingRemainder : ℚ
  recentLatencies : List ℚ
  recentLbWaits : List ℚ
  recentServerWaits : List ℚ
  algorithmId : AlgorithmId
  workloadId : WorkloadId
  rrIndex : ℕ
  ewmaAlpha : ℚ
  loadBalancers : List LoadBalancerState
  leaderLbId : Option String
  servers : List ServerState
  log : List LogEntry
  metrics : List MetricsPoint
  totals : Totals
  healthCheckIntervalMs : ℚ
  recoveryDelayMs : ℚ

/-! ### Small helpers (argument order fixed; faithful to JS semantics) -/

/-- Replace the element at index `i` (JS mutation of one array slot). -/
def modifyAt {α : Type} (l : List α) (i : ℕ) (f : α → α) : List α :=
  match l, i with
  | [], _ => []
  | x :: xs, 0 => f x :: xs
  | x :: xs, n + 1 => x :: modifyAt xs n f

/-- JavaScript `%` for a nonnegative integer left operand and a
positive rational right operand (`x % m = x - m * trunc (x / m)`). -/
def qmod (a b : ℚ) : ℚ := a - b * (⌊a / b⌋ : ℤ)

/-- `Math.round` (half up), as used in log messages. -/
def jsRound (q : ℚ) : ℤ := ⌊q + 1 / 2⌋

/-- Truthy lookup in an `Object.fromEntries` result: the last entry for a
key wins; a missing key is falsy. -/
def snapLookup (snap : List (String × Bool)) (sid : String) : Bool :=
  ((snap.reverse.find? (fun e => e.1 == sid)).map (·.2)).getD false

/-! ### Workloads (`workloads.ts`) -/

/-- `rateRps` of the registered workloads. -/
def workloadRate (w : WorkloadId) (timeMs : ℚ) : ℚ :=
  match w with
  | .steady => 20
  | .burst =>
      let base : ℚ := 8
      let burst : ℚ := 45
      let cycleMs : ℚ := 8000
      let burstMs : ℚ := 2000
      if qmod timeMs cycleMs < burstMs then base + burst else base

/-! ### Routing algorithms (`algorithms.ts`, the five-strategy variant) -/

/-- Argument record of `Algorithm.select`. -/
structure SelectArgs where
  servers : List ServerState
  availableIds : List String
  rrIndex : ℕ
  requestId : ℕ

/-- Result record of `Algorithm.select`. -/
structure SelectResult where
  serverId : Option String := none
  reason : String
  rrIndex : Option ℕ := none
  deriving DecidableEq, Repr

/-- A registered algorithm. -/
structure Algorithm where
  id : AlgorithmId
  name : String
  select : SelectArgs → SelectResult

/-- `withAvailableServers` from `algorithms.ts`. -/
def withAvailableServers (servers : List ServerState) (availableIds : List String) :
    List ServerState :=
  servers.filter (fun server => availableIds.contains server.id)

/-- `pickDeterministicPair` from `algorithms.ts`. -/
def pickDeterministicPair (length : ℕ) (requestId : ℕ) : ℕ × ℕ :=
  if length ≤ 1 then (0, 0)
  else
    let first := requestId % length
    let second := (first + 1 + (requestId * 7) % (length - 1)) % length
    (first, second)

/-- Round-robin `select`. -/
def roundRobinSelect (args : SelectArgs) : SelectResult :=
  if args.availableIds.length = 0 then
    { reason := "no available servers" }
  else
    let index := args.rrIndex % args.availableIds.length
    let chosenId := args.availableIds.getD index ""
    let cursor := args.rrIndex
    { serverId := some chosenId
      rrIndex := some (args.rrIndex + 1)
      reason := s!"round robin index {cursor} -> {chosenId}" }

/-- Least-connections `select`. -/
def leastConnectionsSelect (args : SelectArgs) : SelectResult :=
  match withAvailableServers args.servers args.availableIds with
  | [] => { reason := "no available servers" }
  | c0 :: rest =>
      let chosen := (c0 :: rest).foldl
        (fun acc server =>
          if server.inflight.length < acc.inflight.length then server else acc) c0
      let cid := chosen.id
      let conns := chosen.inflight.length
      { serverId := some chosen.id
        reason := s!"least connections picked {cid} ({conns} active)" }

/-- The cumulative-weight scan of weighted round robin (`break` on the first
server whose cumulative range contains the slot). -/
def wrrScan (slot : ℚ) : ℚ → List ServerState → Option ServerState
  | _, [] => none
  | cursor, server :: rest =>
      let cursor' := cursor + max 1 server.weight
      if slot < cursor' then some server else wrrScan slot cursor' rest

/-- Weighted-round-robin `select`. -/
def weightedRoundRobinSelect (args : SelectArgs) : SelectResult :=
  match withAvailableServers args.servers args.availableIds with
  | [] => { reason := "no available servers" }
  | c0 :: rest =>
      let candidates := c0 :: rest
      let totalWeight := candidates.foldl (fun sum server => sum + max 1 server.weight) 0
      let slot := qmod (args.rrIndex : ℚ) totalWeight
      let chosen := (wrrScan slot 0 candidates).getD c0
      let cid := chosen.id
      { serverId := some chosen.id
        rrIndex := some (args.rrIndex + 1)
        reason := s!"weighted round robin -> {cid} (slot {slot}/{totalWeight})" }

/-- EWMA-latency `select`. -/
def ewmaSelect (args : SelectArgs) : SelectResult :=
  match withAvailableServers args.servers args.availableIds with
  | [] => { reason := "no available servers" }
  | c0 :: rest =>
      let chosen := (c0 :: rest).foldl
        (fun acc server =>
          if server.ewmaLatencyMs < acc.ewmaLatencyMs then server else acc) c0
      let cid := chosen.id
      let ms := jsRound chosen.ewmaLatencyMs
      { serverId := some chosen.id
        reason := s!"ewma picked {cid} ({ms}ms)" }

/-- Power-of-two-choices `select`. -/
def p2cSelect (args : SelectArgs) : SelectResult :=
  match withAvailableServers args.servers args.availableIds with
  | [] => { reason := "no available servers" }
  | c0 :: rest =>
      let candidates := c0 :: rest
      let pair := pickDeterministicPair candidates.length args.requestId
      let first := (candidates.get? pair.1).getD c0
      let second := (candidates.get? pair.2).getD first
      let firstLoad := first.inflight.length + first.queue.length
      let secondLoad := second.inflight.length + second.queue.length
      let chosen := if firstLoad ≤ secondLoad then first else second
      let cid := chosen.id
      { serverId := some chosen.id
        reason := s!"p2c chose {cid} ({firstLoad} vs {secondLoad})" }

/-- The algorithm registry (`algorithms` array). -/
def algorithms : List Algorithm :=
  [ { id := .roundRobin, name := "Round Robin", select := roundRobinSelect },
    { id := .leastConnections, name := "Least Connections", select := leastConnectionsSelect },
    { id := .weightedRoundRobin, name := "Weighted Round Robin", select := weightedRoundRobinSelect },
    { id := .ewma, name := "EWMA Latency", select := ewmaSelect },
    { id := .p2c, name := "Power of Two Choices", select := p2cSelect } ]

/-- `getAlgorithm`: find by id, defaulting to the first registered entry. -/
def getAlgorithm (id : AlgorithmId) : Algorithm :=
  ((algorithms.find? (fun algo => algo.id == id)).getD (algorithms.getD 0
    { id := .roundRobin, name := "", select := roundRobinSelect }))

/-! ### Simulator helpers (`simulator.ts`, lines 11–102) -/

def LOG_LIMIT : ℕ := 260
def METRICS_LIMIT : ℕ := 160
def SAMPLE_LIMIT : ℕ := 260

/-- `pushLog`: append, then trim from the front to `LOG_LIMIT`. -/
def pushLogList (log : List LogEntry) (entry : LogEntry) : List LogEntry :=
  let log' := log ++ [entry]
  if LOG_LIMIT < log'.length then log'.drop (log'.length - LOG_LIMIT) else log'

/-- `pushSample`: append, then trim from the front to `SAMPLE_LIMIT`. -/
def pushSampleList (values : List ℚ) (value : ℚ) : List ℚ :=
  let values' := values ++ [value]
  if SAMPLE_LIMIT < values'.length then values'.drop (values'.length - SAMPLE_LIMIT)
  else values'

/-- `avg` over a sample window. -/
def avg (values : List ℚ) : ℚ :=
  if values.length = 0 then 0
  else (values.foldl (fun sum value => sum + value) 0) / values.length

/-- Ascending insertion into a sorted list (for the `p95` sort). -/
def insertSorted (x : ℚ) : List ℚ → List ℚ
  | [] => [x]
  | y :: ys => if x ≤ y then x :: y :: ys else y :: insertSorted x ys

/-- Ascending sort, modelling `[...values].sort((a, b) => a - b)`. -/
def sortAsc (values : List ℚ) : List ℚ := values.foldr insertSorted []

/-- `p95` percentile over a sample window. -/
def p95 (values : List ℚ) : ℚ :=
  if values.length = 0 then 0
  else
    let sorted := sortAsc values
    let index := min (sorted.length - 1) (Int.toNat ⌊(sorted.length : ℚ) * (95 / 100)⌋)
    sorted.getD index 0

/-- `electLeader`: the first load balancer that is up. -/
def electLeader (loadBalancers : List LoadBalancerState) : Option LoadBalancerState :=
  loadBalancers.find? (fun lb => lb.isUp)

/-- `isServerAvailable` (`simulator.ts` lines 56–62). -/
def isServerAvailable (server : ServerState) (timeMs : ℚ) : Bool :=
  if server.health == ServerHealth.DOWN then false
  else if decide (timeMs < server.circuitBreakerUntilMs) then false
  else
    let capacityOpen := decide (server.inflight.length < server.maxConcurrentRequests)
    let queueOpen := decide (server.queue.length < server.serverQueueSize)
    capacityOpen || queueOpen

/-- `updateHealthSnapshot` (`simulator.ts` lines 64–89): skip when the
interval has not elapsed; otherwise auto-recover eligible DOWN servers and
rebuild this LB's snapshot. -/
def updateHealthSnapshot (lb : LoadBalancerState) (servers : List ServerState)
    (timeMs intervalMs recoveryDelayMs : ℚ) :
    LoadBalancerState × List ServerState :=
  if timeMs - lb.lastHealthCheckMs < intervalMs then (lb, servers)
  else
    let servers' := servers.map (fun server =>
      if server.health == ServerHealth.DOWN &&
          decide (recoveryDelayMs ≤ timeMs - server.lastHealthChangeMs) then
        { server with health := ServerHealth.UP, lastHealthChangeMs := timeMs }
      else server)
    let lb' := { lb with
      lastHealthCheckMs := timeMs,
      healthSnapshot := servers'.map (fun server =>
        (server.id,
         server.health != ServerHealth.DOWN &&
           decide (server.circuitBreakerUntilMs ≤ timeMs))) }
    (lb', servers')

/-- The per-LB snapshot-refresh loop (`simulator.ts` lines 141–149),
threading server auto-recovery through successive LBs. -/
def updateAllSnapshots (timeMs intervalMs recoveryDelayMs : ℚ) :
    List LoadBalancerState → List ServerState →
    List LoadBalancerState × List ServerState
  | [], servers => ([], servers)
  | lb :: rest, servers =>
      let u := updateHealthSnapshot lb servers timeMs intervalMs recoveryDelayMs
      let r := updateAllSnapshots timeMs intervalMs recoveryDelayMs rest u.2
      (u.1 :: r.1, r.2)

/-- `computeProcessingTime` (`simulator.ts` lines 91–102). -/
def computeProcessingTime (server : ServerState) (alpha : ℚ) : ℚ :=
  let utilization : ℚ :=
    if server.maxConcurrentRequests = 0 then 1
    else (server.inflight.length : ℚ) / (server.maxConcurrentRequests : ℚ)
  let multiplier : ℚ :=
    if server.health == ServerHealth.SLOW then server.slowMultiplier else 1
  server.baseLatencyMs * multiplier * (1 + alpha * utilization ^ 2)

/-- The EWMA latency update applied on completion (`simulator.ts`
lines 375–377). -/
def ewmaUpdate (alpha old sample : ℚ) : ℚ := alpha * sample + (1 - alpha) * old

/-- Replace the first element matching `p` (JS `find` returning a live
reference that is then mutated). -/
def updateFirst {α : Type} (l : List α) (p : α → Bool) (f : α → α) : List α :=
  match l with
  | [] => []
  | x :: xs => if p x then f x :: xs else x :: updateFirst xs p f

/-! ### The tick algorithm (`stepSimulation`) -/

/-- `ensureLeader` (`simulator.ts` lines 131–139): keep the current leader
while up, else elect the first up LB; returns the leader's index. -/
def ensureLeader (s : SimulationState) : Option ℕ × SimulationState :=
  let currentIdx : Option ℕ :=
    match s.leaderLbId with
    | some lid => s.loadBalancers.findIdx? (fun lb => lb.id == lid)
    | none => none
  let currentUp : Bool :=
    match currentIdx with
    | some i => ((s.loadBalancers.get? i).map (·.isUp)).getD false
    | none => false
  if currentUp then (currentIdx, s)
  else
    match s.loadBalancers.findIdx? (fun lb => lb.isUp) with
    | some j =>
        (some j, { s with leaderLbId := (s.loadBalancers.get? j).map (·.id) })
    | none => (none, { s with leaderLbId := none })

/-- The pre-filtered routable server set: cached snapshot entry true AND
live `isServerAvailable` (`simulator.ts` lines 212–217). -/
def availableServers (servers : List ServerState) (snap : List (String × Bool))
    (timeMs : ℚ) : List ServerState :=
  servers.filter (fun server =>
    snapLookup snap server.id && isServerAvailable server timeMs)

/-- The ids of the pre-filtered routable server set. -/
def availableServerIds (servers : List ServerState) (snap : List (String × Bool))
    (timeMs : ℚ) : List String :=
  (availableServers servers snap timeMs).map (·.id)

/-- One iteration of the arrival loop (`simulator.ts` lines 151–191):
create the request, then fail it (no leader), drop it (admission queue
full) or append it to the leader's FIFO queue. -/
def processArrival (leaderIdx : Option ℕ) (h : Heap) (s : SimulationState) :
    Heap × SimulationState :=
  let rid := s.nextRequestId
  let timeMs := s.timeMs
  let s1 := { s with nextRequestId := rid + 1 }
  let req : Request :=
    { id := rid, arrivalTimeMs := timeMs, lbQueueEnterMs := some timeMs,
      status := RequestStatus.arrived }
  let failNoLeader := fun (lbId : Option String) =>
    let reason := "load balancer unavailable"
    let req' := { req with status := RequestStatus.failed, failureReason := some reason }
    let entry : LogEntry :=
      { id := rid, timeMs := timeMs, status := RequestStatus.failed,
        message := s!"Request {rid} failed: {reason}", lbId := lbId }
    (hset h rid req',
     { s1 with totals := { s1.totals with failed := s1.totals.failed + 1 },
               log := pushLogList s1.log entry })
  match leaderIdx with
  | none => failNoLeader none
  | some i =>
    match s1.loadBalancers.get? i with
    | none => failNoLeader none
    | some leader =>
      if ¬ leader.isUp then failNoLeader (some leader.id)
      else if leader.queueSize ≤ leader.queue.length then
        let reason := "lb queue full (503)"
        let req' := { req with status := RequestStatus.failed, failureReason := some reason }
        let entry : LogEntry :=
          { id := rid, timeMs := timeMs, status := RequestStatus.failed,
            message := s!"Request {rid} rejected: {reason}", lbId := some leader.id }
        (hset h rid req',
         { s1 with
             loadBalancers := modifyAt s1.loadBalancers i
               (fun lb => { lb with droppedRequests := lb.droppedRequests + 1 }),
             totals := { s1.totals with droppedLb := s1.totals.droppedLb + 1 },
             log := pushLogList s1.log entry })
      else
        let req' := { req with status := RequestStatus.lbQueued }
        (hset h rid req',
         { s1 with
             loadBalancers := modifyAt s1.loadBalancers i
               (fun lb => { lb with queue := lb.queue ++ [rid] }) })

/-- The arrival loop, run `arrivals` times in id order. -/
def processArrivals (leaderIdx : Option ℕ) :
    ℕ → Heap → SimulationState → Heap × SimulationState
  | 0, h, s => (h, s)
  | n + 1, h, s =>
      let hs := processArrival leaderIdx h s
      processArrivals leaderIdx n hs.1 hs.2

/-- One iteration of the leader's drain loop (`simulator.ts` lines 200–327):
shift one request, route it with the configured algorithm against the
snapshot∩live available set, and dispatch, queue, or fail it. -/
def drainOne (i : ℕ) (routed : ℕ) (h : Heap) (s : SimulationState) :
    ℕ × Heap × SimulationState :=
  match s.loadBalancers.get? i with
  | none => (routed, h, s)
  | some leader =>
    match leader.queue with
    | [] => (routed, h, s)
    | rid :: restQ =>
      let timeMs := s.timeMs
      let s1 := { s with
        loadBalancers := modifyAt s.loadBalancers i (fun lb => { lb with queue := restQ }) }
      let req0 := h rid
      let wait := timeMs - ((req0.lbQueueEnterMs).getD req0.arrivalTimeMs)
      let req1 := { req0 with lbQueueExitMs := some timeMs, lbQueueWaitMs := some wait }
      let h1 := hset h rid req1
      let s2 := { s1 with recentLbWaits := pushSampleList s1.recentLbWaits wait }
      let algorithm := getAlgorithm leader.routingAlgorithm
      let availableIds := availableServerIds s2.servers leader.healthSnapshot timeMs
      let selection := algorithm.select
        { servers := s2.servers, availableIds := availableIds,
          rrIndex := s2.rrIndex, requestId := rid }
      let s3 := match selection.rrIndex with
        | some v => { s2 with rrIndex := v }
        | none => s2
      match selection.serverId with
      | none =>
        let req2 := { req1 with status := RequestStatus.failed,
                                failureReason := some selection.reason }
        let reason := selection.reason
        let entry : LogEntry :=
          { id := rid, timeMs := timeMs, status := RequestStatus.failed,
            message := s!"Request {rid} failed: {reason}", lbId := some leader.id }
        (routed, hset h1 rid req2,
         { s3 with totals := { s3.totals with failed := s3.totals.failed + 1 },
                   log := pushLogList s3.log entry })
      | some sid =>
        match s3.servers.find? (fun server => server.id == sid) with
        | none =>
          let reason := "server not found"
          let req2 := { req1 with status := RequestStatus.failed,
                                  failureReason := some reason }
          let entry : LogEntry :=
            { id := rid, timeMs := timeMs, status := RequestStatus.failed,
              message := s!"Request {rid} failed: {reason}", lbId := some leader.id }
          (routed, hset h1 rid req2,
           { s3 with totals := { s3.totals with failed := s3.totals.failed + 1 },
                     log := pushLogList s3.log entry })
        | some server =>
          if ¬ isServerAvailable server timeMs then
            let reason := "server unavailable"
            let req2 := { req1 with status := RequestStatus.failed,
                                    failureReason := some reason }
            let entry : LogEntry :=
              { id := rid, timeMs := timeMs, status := RequestStatus.failed,
                message := s!"Request {rid} failed: {reason}",
                lbId := some leader.id, serverId := some server.id }
            (routed, hset h1 rid req2,
             { s3 with
                 totals := { s3.totals with failed := s3.totals.failed + 1 },
                 servers := updateFirst s3.servers (fun srv => srv.id == sid)
                   (fun srv => { srv with totalFailed := srv.totalFailed + 1 }),
                 log := pushLogList s3.log entry })
          else
            let req3 := { req1 with
              lbId := some leader.id, serverId := some server.id,
              algorithmId := some algorithm.id, decisionReason := some selection.reason }
            let s4 := { s3 with
              loadBalancers := modifyAt s3.loadBalancers i
                (fun lb => { lb with activeConnections := lb.activeConnections + 1 }) }
            let routedNext := routed + 1
            if server.inflight.length < server.maxConcurrentRequests then
              let ptime := computeProcessingTime server s4.ewmaAlpha
              let req4 := { req3 with
                startProcessingMs := some timeMs, processingTimeMs := some ptime,
                remainingTimeMs := some ptime, status := RequestStatus.processing }
              let reason := selection.reason
              let entry : LogEntry :=
                { id := rid, timeMs := timeMs, status := RequestStatus.processing,
                  message := s!"Request {rid} -> {sid} ({reason})",
                  lbId := some leader.id, serverId := some server.id }
              (routedNext, hset h1 rid req4,
               { s4 with
                   servers := updateFirst s4.servers (fun srv => srv.id == sid)
                     (fun srv => { srv with inflight := srv.inflight ++ [rid] }),
                   totals := { s4.totals with started := s4.totals.started + 1 },
                   log := pushLogList s4.log entry })
            else if server.queue.length < server.serverQueueSize then
              let req4 := { req3 with
                serverQueueEnterMs := some timeMs, status := RequestStatus.serverQueued }
              let reason := selection.reason
              let entry : LogEntry :=
                { id := rid, timeMs := timeMs, status := RequestStatus.serverQueued,
                  message := s!"Request {rid} queued on {sid} ({reason})",
                  lbId := some leader.id, serverId := some server.id }
              (routedNext, hset h1 rid req4,
               { s4 with
                   servers := updateFirst s4.servers (fun srv => srv.id == sid)
                     (fun srv => { srv with queue := srv.queue ++ [rid] }),
                   log := pushLogList s4.log entry })
            else
              let reason := "server queue full (503)"
              let req4 := { req3 with status := RequestStatus.failed,
                                      failureReason := some reason }
              let entry : LogEntry :=
                { id := rid, timeMs := timeMs, status := RequestStatus.failed,
                  message := s!"Request {rid} failed: {reason}",
                  lbId := some leader.id, serverId := some server.id }
              (routedNext, hset h1 rid req4,
               { s4 with
                   totals := { s4.totals with
                     failed := s4.totals.failed + 1,
                     droppedServer := s4.totals.droppedServer + 1 },
                   servers := updateFirst s4.servers (fun srv => srv.id == sid)
                     (fun srv => { srv with
                       totalFailed := srv.totalFailed + 1,
                       circuitBreakerUntilMs := timeMs + s4.recoveryDelayMs }),
                   log := pushLogList s4.log entry,
                   loadBalancers := modifyAt
                     (modifyAt s3.loadBalancers i
                       (fun lb => { lb with activeConnections := lb.activeConnections + 1 })) i
                     (fun lb => { lb with activeConnections := lb.activeConnections - 1 }) })

/-- The drain `while` loop (`simulator.ts` lines 200–204 conditions), with
fuel bounded by the queue length. -/
def drainLoop (i maxPerTick : ℕ) :
    ℕ → ℕ → Heap → SimulationState → ℕ × Heap × SimulationState
  | 0, routed, h, s => (routed, h, s)
  | fuel + 1, routed, h, s =>
    match s.loadBalancers.get? i with
    | none => (routed, h, s)
    | some leader =>
      if leader.queue.length ≠ 0 ∧ routed < maxPerTick ∧
          leader.activeConnections < leader.maxConcurrentConnections then
        let one := drainOne i routed h s
        drainLoop i maxPerTick fuel one.1 one.2.1 one.2.2
      else (routed, h, s)

/-- The leader-drain phase (`simulator.ts` lines 193–328), returning the
number of requests dispatched this tick. -/
def drainPhase (leaderIdx : Option ℕ) (dtMs : ℚ) (h : Heap) (s : SimulationState) :
    ℕ × Heap × SimulationState :=
  match leaderIdx with
  | none => (0, h, s)
  | some i =>
    match s.loadBalancers.get? i with
    | none => (0, h, s)
    | some leader =>
      if leader.isUp then
        let maxPerTick := Int.toNat ⌊leader.maxConnectionsPerSecond * dtMs / 1000⌋
        drainLoop i maxPerTick leader.queue.length 0 h s
      else (0, h, s)

/-- Accumulator of the per-server promote/progress pass: everything the
loops touch besides the server itself. -/
structure SrvAcc where
  h : Heap
  loadBalancers : List LoadBalancerState
  totals : Totals
  recentLatencies : List ℚ
  recentLbWaits : List ℚ
  recentServerWaits : List ℚ
  log : List LogEntry

/-- The promotion `while` loop (`simulator.ts` lines 331–349): move queued
requests into processing, oldest first, while capacity is free. -/
def promoteLoop (alpha timeMs : ℚ) :
    ℕ → ServerState → SrvAcc → ServerState × SrvAcc
  | 0, server, acc => (server, acc)
  | fuel + 1, server, acc =>
    if server.queue.length ≠ 0 ∧
        server.inflight.length < server.maxConcurrentRequests then
      match server.queue with
      | [] => (server, acc)
      | rid :: restQ =>
        let server1 := { server with queue := restQ }
        let req0 := acc.h rid
        let wait := timeMs - ((req0.serverQueueEnterMs).getD timeMs)
        let ptime := computeProcessingTime server1 alpha
        let req1 := { req0 with
          serverQueueExitMs := some timeMs, serverQueueWaitMs := some wait,
          startProcessingMs := some timeMs, processingTimeMs := some ptime,
          remainingTimeMs := some ptime, status := RequestStatus.processing }
        let acc1 := { acc with
          h := hset acc.h rid req1,
          recentServerWaits := pushSampleList acc.recentServerWaits wait,
          totals := { acc.totals with started := acc.totals.started + 1 } }
        promoteLoop alpha timeMs fuel
          { server1 with inflight := server1.inflight ++ [rid] } acc1
    else (server, acc)

/-- The in-flight progress loop (`simulator.ts` lines 351–398): decrement
remaining time; complete requests reaching ≤ 0, keep the rest. -/
def progressLoop (alpha timeMs dtMs : ℚ) :
    List ℕ → ServerState → List ℕ → SrvAcc → ServerState × List ℕ × SrvAcc
  | [], server, still, acc => (server, still, acc)
  | rid :: rest, server, still, acc =>
    let req0 := acc.h rid
    let rem1 := ((req0.remainingTimeMs).getD 0) - dtMs
    if rem1 ≤ 0 then
      let lbWait := ((req0.lbQueueExitMs).getD timeMs) -
        ((req0.lbQueueEnterMs).getD req0.arrivalTimeMs)
      let srvWait := ((req0.serverQueueExitMs).getD timeMs) -
        ((req0.serverQueueEnterMs).getD ((req0.startProcessingMs).getD timeMs))
      let ptime := (req0.processingTimeMs).getD 0
      let latency := timeMs - req0.arrivalTimeMs
      let req1 := { req0 with
        remainingTimeMs := some rem1, endTimeMs := some timeMs,
        status := RequestStatus.completed, lbQueueWaitMs := some lbWait,
        serverQueueWaitMs := some srvWait, processingTimeMs := some ptime,
        latencyMs := some latency }
      let server1 := { server with
        totalProcessed := server.totalProcessed + 1,
        ewmaLatencyMs := ewmaUpdate alpha server.ewmaLatencyMs latency }
      let lbs1 := match req0.lbId with
        | some lid => updateFirst acc.loadBalancers (fun lb => lb.id == lid)
            (fun lb => { lb with activeConnections := lb.activeConnections - 1 })
        | none => acc.loadBalancers
      let sid := server.id
      let rounded := jsRound latency
      let entry : LogEntry :=
        { id := rid, timeMs := timeMs, status := RequestStatus.completed,
          message := s!"Request {rid} completed on {sid} in {rounded}ms",
          lbId := req0.lbId, serverId := some server.id }
      let acc1 := { acc with
        h := hset acc.h rid req1,
        loadBalancers := lbs1,
        totals := { acc.totals with completed := acc.totals.completed + 1 },
        recentLatencies := pushSampleList acc.recentLatencies latency,
        recentLbWaits := pushSampleList acc.recentLbWaits lbWait,
        recentServerWaits := pushSampleList acc.recentServerWaits srvWait,
        log := pushLogList acc.log entry }
      progressLoop alpha timeMs dtMs rest server1 still acc1
    else
      let req1 := { req0 with remainingTimeMs := some rem1 }
      progressLoop alpha timeMs dtMs rest server (still ++ [rid])
        { acc with h := hset acc.h rid req1 }

/-- The per-server pass of lines 330–399 over the whole server list. -/
def serversPhase (alpha timeMs dtMs : ℚ) :
    List ServerState → SrvAcc → List ServerState × SrvAcc
  | [], acc => ([], acc)
  | server :: rest, acc =>
      let p := promoteLoop alpha timeMs server.queue.length server acc
      let q := progressLoop alpha timeMs dtMs p.1.inflight p.1 [] p.2
      let server' := { q.1 with inflight := q.2.1 }
      let r := serversPhase alpha timeMs dtMs rest q.2.2
      (server' :: r.1, r.2)

/-- The phases of `stepSimulation` before the leader drain (clone/advance
clock, reset `activeConnections`, arrival accounting, leader election,
snapshot refresh, arrival loop); returns the leader index. -/
def preDrain (h : Heap) (prev : SimulationState) (dtMs : ℚ) :
    Option ℕ × Heap × SimulationState :=
  let s0 : SimulationState := { prev with
    timeMs := prev.timeMs + dtMs,
    loadBalancers := prev.loadBalancers.map
      (fun lb => { lb with activeConnections := 0 }) }
  let arrivalRate := workloadRate s0.workloadId s0.timeMs
  let expected := arrivalRate * dtMs / 1000
  let arrivals : ℤ := ⌊s0.pendingRemainder + expected⌋
  let s1 := { s0 with pendingRemainder := s0.pendingRemainder + expected - arrivals }
  let el := ensureLeader s1
  let snap := updateAllSnapshots el.2.timeMs el.2.healthCheckIntervalMs
    el.2.recoveryDelayMs el.2.loadBalancers el.2.servers
  let s3 := { el.2 with loadBalancers := snap.1, servers := snap.2 }
  let ar := processArrivals el.1 arrivals.toNat h s3
  (el.1, ar.1, ar.2)

/-- The metrics sample appended at the end of each tick
(`simulator.ts` lines 401–437). -/
def metricsPhase (s : SimulationState) : SimulationState :=
  let totalInflight := s.servers.foldl (fun sum server => sum + server.inflight.length) 0
  let totalServerQueued := s.servers.foldl (fun sum server => sum + server.queue.length) 0
  let totalLbQueued := s.loadBalancers.foldl (fun sum lb => sum + lb.queue.length) 0
  let avgLatency := avg s.recentLatencies
  let p95Latency := p95 s.recentLatencies
  let failureTotal := s.totals.failed + s.totals.droppedLb + s.totals.droppedServer
  let totalProcessed := s.totals.completed + failureTotal
  let failureRate : ℚ :=
    if totalProcessed = 0 then 0 else ((failureTotal : ℚ) / (totalProcessed : ℚ)) * 100
  let point : MetricsPoint :=
    { timeMs := s.timeMs, avgLatencyMs := avgLatency, p95LatencyMs := p95Latency,
      lbQueueDepth := totalLbQueued, serverQueueDepth := totalServerQueued,
      inflight := totalInflight, failureRate := failureRate,
      dropsLb := s.totals.droppedLb, dropsServer := s.totals.droppedServer,
      avgLbWaitMs := avg s.recentLbWaits, avgServerWaitMs := avg s.recentServerWaits }
  let metrics' := s.metrics ++ [point]
  { s with metrics :=
      if METRICS_LIMIT < metrics'.length then metrics'.drop (metrics'.length - METRICS_LIMIT)
      else metrics' }

/-- `stepSimulation` (`simulator.ts` lines 104–440) over the explicit
request store. -/
def stepSimulation (h : Heap) (prev : SimulationState) (dtMs : ℚ) :
    Heap × SimulationState :=
  let pre := preDrain h prev dtMs
  let dr := drainPhase pre.1 dtMs pre.2.1 pre.2.2
  let s4 := dr.2.2
  let sp := serversPhase s4.ewmaAlpha s4.timeMs dtMs s4.servers
    { h := dr.2.1, loadBalancers := s4.loadBalancers, totals := s4.totals,
      recentLatencies := s4.recentLatencies, recentLbWaits := s4.recentLbWaits,
      recentServerWaits := s4.recentServerWaits, log := s4.log }
  let s5 := { s4 with
    servers := sp.1, loadBalancers := sp.2.loadBalancers, totals := sp.2.totals,
    recentLatencies := sp.2.recentLatencies, recentLbWaits := sp.2.recentLbWaits,
    recentServerWaits := sp.2.recentServerWaits, log := sp.2.log }
  (sp.2.h, metricsPhase s5)

/-- The number of requests the leader dispatches during one call of
`stepSimulation` (the final `routedThisTick` of the drain loop). -/
def stepDispatched (h : Heap) (prev : SimulationState) (dtMs : ℚ) : ℕ :=
  let pre := preDrain h prev dtMs
  (drainPhase pre.1 dtMs pre.2.1 pre.2.2).1

/-- Iterate `stepSimulation` over a list of tick sizes. -/
def runSteps (hs : Heap × SimulationState) : List ℚ → Heap × SimulationState
  | [] => hs
  | dt :: rest => runSteps (stepSimulation hs.1 hs.2 dt) rest

/-- The empty request store backing `createInitialState`. -/
def initialHeap : Heap := fun _ => defaultRequest

/-- The server list of `createInitialState` (`simulator.ts` lines 444–496). -/
def initialServers : List ServerState :=
  [ { id := "srv-1", name := "Server 1", health := ServerHealth.UP,
      baseLatencyMs := 160, slowMultiplier := 9 / 5, weight := 1,
      maxConcurrentRequests := 12, serverQueueSize := 18, inflight := [], queue := [],
      totalProcessed := 0, totalFailed := 0, ewmaLatencyMs := 180,
      circuitBreakerUntilMs := 0, lastHealthChangeMs := 0 },
    { id := "srv-2", name := "Server 2", health := ServerHealth.UP,
      baseLatencyMs := 190, slowMultiplier := 9 / 5, weight := 1,
      maxConcurrentRequests := 10, serverQueueSize := 16, inflight := [], queue := [],
      totalProcessed := 0, totalFailed := 0, ewmaLatencyMs := 200,
      circuitBreakerUntilMs := 0, lastHealthChangeMs := 0 },
    { id := "srv-3", name := "Server 3", health := ServerHealth.UP,
      baseLatencyMs := 140, slowMultiplier := 9 / 5, weight := 1,
      maxConcurrentRequests := 14, serverQueueSize := 20, inflight := [], queue := [],
      totalProcessed := 0, totalFailed := 0, ewmaLatencyMs := 170,
      circuitBreakerUntilMs := 0, lastHealthChangeMs := 0 } ]

/-- `createInitialState` (`simulator.ts` lines 442–545). -/
def createInitialState : SimulationState :=
  { timeMs := 0, tickMs := 1000, nextRequestId := 1, pendingRemainder := 0,
    recentLatencies := [], recentLbWaits := [], recentServerWaits := [],
    algorithmId := AlgorithmId.roundRobin, workloadId := WorkloadId.steady,
    rrIndex := 0, ewmaAlpha := 1 / 5,
    loadBalancers :=
      [ { id := "lb-1", name := "LB Alpha", isUp := true,
          maxConnectionsPerSecond := 40, maxConcurrentConnections := 60,
          queueSize := 120, droppedRequests := 0, queue := [], activeConnections := 0,
          routingAlgorithm := AlgorithmId.roundRobin, healthIntervalMs := 3000,
          lastHealthCheckMs := 0,
          healthSnapshot := initialServers.map
            (fun server => (server.id, server.health != ServerHealth.DOWN)) } ],
    leaderLbId := some "lb-1", servers := initialServers, log := [], metrics := [],
    totals := { completed := 0, failed := 0, started := 0, droppedLb := 0,
                droppedServer := 0 },
    healthCheckIntervalMs := 3000, recoveryDelayMs := 8000 }

/-! ### Concrete fixtures used by witnesses and counterexamples -/

/-- A minimal healthy server. -/
def testServer : ServerState :=
  { id := "s1", name := "S1", health := ServerHealth.UP, baseLatencyMs := 100,
    slowMultiplier := 2, weight := 1, maxConcurrentRequests := 2, serverQueueSize := 2,
    inflight := [], queue := [], totalProcessed := 0, totalFailed := 0,
    ewmaLatencyMs := 100, circuitBreakerUntilMs := 0, lastHealthChangeMs := 0 }

/-- A minimal up load balancer whose drain rate is zero. -/
def testLb : LoadBalancerState :=
  { id := "lb", name := "LB", isUp := true, maxConnectionsPerSecond := 0,
    maxConcurrentConnections := 10, queueSize := 10, droppedRequests := 0,
    queue := [], activeConnections := 0, routingAlgorithm := AlgorithmId.roundRobin,
    healthIntervalMs := 3000, lastHealthCheckMs := 0, healthSnapshot := [("s1", true)] }

/-- A minimal simulation state around `testServer` and `testLb`. -/
def baseState : SimulationState :=
  { timeMs := 0, tickMs := 1000, nextRequestId := 1, pendingRemainder := 0,
    recentLatencies := [], recentLbWaits := [], recentServerWaits := [],
    algorithmId := AlgorithmId.roundRobin, workloadId := WorkloadId.steady,
    rrIndex := 0, ewmaAlpha := 1 / 5, loadBalancers := [testLb],
    leaderLbId := some "lb", servers := [testServer], log := [], metrics := [],
    totals := { completed := 0, failed := 0, started := 0, droppedLb := 0,
                droppedServer := 0 },
    healthCheckIntervalMs := 3000, recoveryDelayMs := 8000 }

/-- `testServer` taken DOWN (externally toggled health). -/
def downServer : ServerState := { testServer with health := ServerHealth.DOWN }

/-- An in-flight request with 15 ms of processing left. -/
def req9 : Request :=
  { id := 1, arrivalTimeMs := 1900, status := RequestStatus.processing,
    startProcessingMs := some 1980, processingTimeMs := some 15,
    remainingTimeMs := some 15 }

/-- Store holding `req9`. -/
def heap9 : Heap := hset initialHeap 1 req9

/-- State holding `req9` in flight (burst workload off-peak: no arrivals in
a 10 ms tick). -/
def state9 : SimulationState :=
  { baseState with
    timeMs := 1990
    workloadId := WorkloadId.burst
    servers := [({ testServer with inflight := [1] } : ServerState)] }

/-- A request waiting in the LB admission queue. -/
def req5 : Request :=
  { id := 1, arrivalTimeMs := 1950, lbQueueEnterMs := some 1950,
    status := RequestStatus.lbQueued }

/-- Store holding `req5`. -/
def heap5 : Heap := hset initialHeap 1 req5

/-- State whose leader already holds one active connection from a previous
step while its concurrency cap is 1, with one queued request. -/
def state5 : SimulationState :=
  { baseState with
    timeMs := 1950
    workloadId := WorkloadId.burst
    loadBalancers := [({ testLb with
      maxConnectionsPerSecond := 20
      maxConcurrentConnections := 1
      activeConnections := 1
      queue := [1] } : LoadBalancerState)] }

/-- Scenario B state: single LB with admission-queue capacity 1 and drain
rate 0. -/
def state6 : SimulationState :=
  { baseState with
    loadBalancers := [({ testLb with queueSize := 1 } : LoadBalancerState)] }

/-- A leader with a full (capacity-0) admission queue. -/
def lbFull : LoadBalancerState := { testLb with queueSize := 0 }

/-- State around `lbFull`. -/
def stateFull : SimulationState :=
  { baseState with loadBalancers := [lbFull] }

/-! ### C3 — service-time formula -/

/-- C3: for a server with positive concurrent capacity, the processing time
assigned on entry to processing is
`baseLatency × (slowMultiplier if SLOW else 1) × (1 + α·(inflight/maxConcurrent)²)`,
with the in-flight count read at entry. -/
theorem c3_service_time_formula (server : ServerState) (alpha : ℚ)
    (hpos : 0 < server.maxConcurrentRequests) :
    computeProcessingTime server alpha =
      server.baseLatencyMs *
        (if server.health = ServerHealth.SLOW then server.slowMultiplier else 1) *
        (1 + alpha *
          ((server.inflight.length : ℚ) / (server.maxConcurrentRequests : ℚ)) ^ 2) := by
  have h0 : server.maxConcurrentRequests ≠ 0 := Nat.pos_iff_ne_zero.mp hpos
  simp only [computeProcessingTime, if_neg h0, beq_iff_eq]

/-- Witness for C3 at a concrete server. -/
theorem c3_witness :
    0 < testServer.maxConcurrentRequests ∧
    computeProcessingTime testServer (1 / 5) =
      testServer.baseLatencyMs *
        (if testServer.health = ServerHealth.SLOW then testServer.slowMultiplier else 1) *
        (1 + (1 / 5) *
          ((testServer.inflight.length : ℚ) / (testServer.maxConcurrentRequests : ℚ)) ^ 2) :=
  ⟨by decide, c3_service_time_formula testServer (1 / 5) (by decide)⟩

/-! ### C7 — routing-algorithm contract and round robin -/

/-- C7 counterexample: on an empty available set, round-robin `select`
returns no updated cursor (`rrIndex = none`), so the cursor does NOT
increment on that invocation, contradicting "cursor always increments by
one on every invocation, including invocations where no selection is
made". -/
theorem c7_counterexample :
    ¬ (((getAlgorithm AlgorithmId.roundRobin).select
        { servers := [], availableIds := [], rrIndex := 5, requestId := 0 }).rrIndex
      = some 6) := by decide

/-- Auxiliary: filtering against an empty id set yields no candidates. -/
theorem withAvailableServers_nil (servers : List ServerState) :
    withAvailableServers servers [] = [] := by
  simp [withAvailableServers]

/-- C7 amended: every registered algorithm's `select` is total and, on an
empty available set, returns no server id together with the reason string;
on a nonempty set round robin returns `availableIds[cursor % |available|]`
and increments the cursor by one, but on an empty set it leaves the cursor
unchanged (`rrIndex = none`). -/
theorem c7_algorithm_contract_amended :
    (∀ algo ∈ algorithms, ∀ servers rr req,
      (algo.select { servers := servers, availableIds := [], rrIndex := rr,
                     requestId := req }).serverId = none ∧
      (algo.select { servers := servers, availableIds := [], rrIndex := rr,
                     requestId := req }).reason = "no available servers") ∧
    (∀ args : SelectArgs, args.availableIds ≠ [] →
      (roundRobinSelect args).serverId =
        some (args.availableIds.getD (args.rrIndex % args.availableIds.length) "") ∧
      (roundRobinSelect args).rrIndex = some (args.rrIndex + 1)) ∧
    (∀ args : SelectArgs, args.availableIds = [] →
      (roundRobinSelect args).rrIndex = none) := by
  refine ⟨?_, ?_, ?_⟩
  · intro algo halgo servers rr req
    simp only [algorithms, List.mem_cons, List.not_mem_nil, or_false] at halgo
    rcases halgo with h | h | h | h | h <;> subst h <;>
      simp [roundRobinSelect, leastConnectionsSelect, weightedRoundRobinSelect,
            ewmaSelect, p2cSelect, withAvailableServers_nil]
  · intro args hne
    have hlen : args.availableIds.length ≠ 0 := by
      simpa [List.length_eq_zero] using hne
    simp [roundRobinSelect, hlen]
  · intro args he
    simp [roundRobinSelect, he]

/-- Witness for C7's amended statement at concrete inputs. -/
theorem c7_witness :
    ((getAlgorithm AlgorithmId.p2c).select
        { servers := [testServer], availableIds := [], rrIndex := 0,
          requestId := 3 }).serverId = none ∧
    (roundRobinSelect
        { servers := [], availableIds := ["a", "b"], rrIndex := 5,
          requestId := 0 }).serverId = some (["a", "b"].getD (5 % 2) "") := by
  constructor
  · exact (c7_algorithm_contract_amended.1 (getAlgorithm AlgorithmId.p2c)
      (by simp [getAlgorithm, algorithms]) [testServer] 0 3).1
  · exact (c7_algorithm_contract_amended.2.1
      { servers := [], availableIds := ["a", "b"], rrIndex := 5, requestId := 0 }
      (by decide)).1

/-! ### C8 — EWMA update and convergence -/

/-- Feed a constant latency sample `L` through `n` consecutive completions. -/
def ewmaIter (alpha L : ℚ) : ℕ → ℚ → ℚ
  | 0, x => x
  | n + 1, x => ewmaIter alpha L n (ewmaUpdate alpha x L)

/-- C8: each completion updates the server's EWMA latency as
`new = α·sample + (1−α)·old`, and feeding a constant sample `L` for `n`
consecutive completions brings the estimate to within `(1−α)^n·|initial−L|`
of `L` (for the configured smoothing constant, `α ≤ 1`). -/
theorem c8_ewma_convergence (alpha L init : ℚ) (halpha : alpha ≤ 1) (n : ℕ) :
    (∀ old sample, ewmaUpdate alpha old sample = alpha * sample + (1 - alpha) * old) ∧
    |ewmaIter alpha L n init - L| ≤ (1 - alpha) ^ n * |init - L| := by
  refine ⟨fun old sample => rfl, ?_⟩
  induction n generalizing init with
  | zero => simp [ewmaIter]
  | succ n ih =>
    have hstep : ewmaUpdate alpha init L - L = (1 - alpha) * (init - L) := by
      simp only [ewmaUpdate]; ring
    have hnn : (0 : ℚ) ≤ 1 - alpha := by linarith
    calc |ewmaIter alpha L (n + 1) init - L|
        = |ewmaIter alpha L n (ewmaUpdate alpha init L) - L| := rfl
      _ ≤ (1 - alpha) ^ n * |ewmaUpdate alpha init L - L| := ih _
      _ = (1 - alpha) ^ n * ((1 - alpha) * |init - L|) := by
          rw [hstep, abs_mul, abs_of_nonneg hnn]
      _ = (1 - alpha) ^ (n + 1) * |init - L| := by ring
  
/-- Witness for C8 at `α = 1/5`, three completions of a constant 50 ms
stream from an initial estimate of 100 ms. -/
theorem c8_witness :
    ((1 : ℚ) / 5 ≤ 1) ∧
    |ewmaIter (1 / 5) 50 3 100 - 50| ≤ (1 - 1 / 5) ^ 3 * |(100 : ℚ) - 50| :=
  ⟨by norm_num, (c8_ewma_convergence (1 / 5) 50 100 (by norm_num) 3).2⟩

/-! ### C4 — stale-health selectability -/

/-- C4 counterexample: `srv-like` server taken DOWN at `t = 1000` while the
leader's cached snapshot (from its last check at `t = 0`, interval 3000 ms)
still marks it available; the claim says it remains selectable until the
next check, but the live-availability filter excludes it immediately, even
though the snapshot itself is indeed not yet refreshed. -/
theorem c4_counterexample :
    downServer.health = ServerHealth.DOWN ∧
    snapLookup [("s1", true)] downServer.id = true ∧
    ((1000 : ℚ) - testLb.lastHealthCheckMs < testLb.healthIntervalMs) ∧
    ¬ (downServer.id ∈ availableServerIds [downServer] [("s1", true)] 1000) ∧
    updateHealthSnapshot testLb [downServer] 1000 3000 8000 = (testLb, [downServer]) := by
  decide

/-- C4 amended: a server that is DOWN is never in the routable set, no
matter what the cached snapshot says (routing intersects the snapshot with
live availability); the staleness window applies to the snapshot itself,
which is left untouched until the interval has elapsed. -/
theorem c4_stale_health_amended :
    (∀ servers snap (t : ℚ) srv, srv ∈ availableServers servers snap t →
       srv.health ≠ ServerHealth.DOWN) ∧
    (∀ lb servers (t iv d : ℚ), t - lb.lastHealthCheckMs < iv →
       updateHealthSnapshot lb servers t iv d = (lb, servers)) := by
  constructor
  · intro servers snap t srv hmem hdown
    simp only [availableServers, List.mem_filter, Bool.and_eq_true] at hmem
    have havail := hmem.2.2
    simp [isServerAvailable, hdown] at havail
  · intro lb servers t iv d hlt
    rw [updateHealthSnapshot, if_pos hlt]

/-- Witness for C4's amended statement at concrete inputs. -/
theorem c4_witness :
    (testServer ∈ availableServers [testServer] [("s1", true)] 0) ∧
    testServer.health ≠ ServerHealth.DOWN ∧
    ((5 : ℚ) - testLb.lastHealthCheckMs < 3000) ∧
    updateHealthSnapshot testLb [testServer] 5 3000 8000 = (testLb, [testServer]) :=
  ⟨by decide,
   c4_stale_health_amended.1 [testServer] [("s1", true)] 0 testServer (by decide),
   by decide,
   c4_stale_health_amended.2 testLb [testServer] 5 3000 8000 (by decide)⟩

/-! ### Request-accounting counterexamples -/

/-- The number of requests currently live in LB admission queues, server
queues, and server in-flight lists. -/
def liveCount (s : SimulationState) : ℕ :=
  (s.loadBalancers.map (fun lb => lb.queue.length)).sum +
  (s.servers.map (fun server => server.queue.length + server.inflight.length)).sum

/-- Total requests currently in flight across servers. -/
def inflightTotal (s : SimulationState) : ℕ :=
  (s.servers.map (fun server => server.inflight.length)).sum

/-- C1 counterexample: five 10 ms ticks from `createInitialState` leave one
arrival live in the leader's admission queue while `totals.started` (which
counts entries into processing, not arrivals) is still 0 — so
`started = completed + (failed + droppedLb + droppedServer) + live`
fails (0 ≠ 1). -/
theorem c1_counterexample :
    ¬ ((runSteps (initialHeap, createInitialState) [10, 10, 10, 10, 10]).2.totals.started =
        (runSteps (initialHeap, createInitialState) [10, 10, 10, 10, 10]).2.totals.completed +
        ((runSteps (initialHeap, createInitialState) [10, 10, 10, 10, 10]).2.totals.failed +
         (runSteps (initialHeap, createInitialState) [10, 10, 10, 10, 10]).2.totals.droppedLb +
         (runSteps (initialHeap, createInitialState) [10, 10, 10, 10, 10]).2.totals.droppedServer) +
        liveCount (runSteps (initialHeap, createInitialState) [10, 10, 10, 10, 10]).2) := by
  decide

/-- C5 counterexample: `state5`'s leader carries `activeConnections = 1`
with `maxConcurrentConnections = 1` from a previously dispatched,
uncompleted request, so the claimed budget `maxCC − active` is 0 — yet the
step dispatches one request, because `activeConnections` is reset to 0 at
the start of every step. -/
theorem c5_counterexample :
    (state5.loadBalancers.map
       (fun lb => lb.maxConcurrentConnections - lb.activeConnections) = [0]) ∧
    stepDispatched heap5 state5 50 = 1 := by decide

/-- C9 counterexample: the step mutates the `Request` object held in the
input state's in-flight list (decrementing its remaining time in the shared
store), and a second call on the very same input state value then yields a
different result (the request completes only in the repeated call). -/
theorem c9_counterexample :
    ((stepSimulation heap9 state9 10).1 1 ≠ heap9 1) ∧
    ((stepSimulation (stepSimulation heap9 state9 10).1 state9 10).2.totals.completed ≠
      (stepSimulation heap9 state9 10).2.totals.completed) := by decide

/-! ### C6 — admission -/

/-- C6: with an up leader, an arrival is appended to the leader's FIFO
queue iff `queue.length < queueSize`; otherwise it is dropped with the
leader's `droppedRequests` and the global `droppedLb` each incremented by
exactly one, the request's recorded reason is the distinguishable
`"lb queue full (503)"` admission-queue-full reason, and a log entry is
appended.  Scenario B: with queue capacity 1 and drain rate 0, two
concurrent arrivals admit the first and drop the second with that reason. -/
theorem c6_admission (i : ℕ) (leader : LoadBalancerState) (h : Heap)
    (s : SimulationState) (rid : ℕ)
    (reason : String)
    (hget : s.loadBalancers[i]? = some leader)
    (hup : leader.isUp = true)
    (hrid : rid = s.nextRequestId)
    (hreason : reason = "lb queue full (503)") :
    ((leader.queue.length < leader.queueSize →
        (processArrival (some i) h s).2.loadBalancers =
          modifyAt s.loadBalancers i
            (fun lb => { lb with queue := lb.queue ++ [rid] }) ∧
        (processArrival (some i) h s).2.totals = s.totals ∧
        (processArrival (some i) h s).2.log = s.log ∧
        ((processArrival (some i) h s).1 rid).status = RequestStatus.lbQueued) ∧
      (leader.queueSize ≤ leader.queue.length →
        (processArrival (some i) h s).2.loadBalancers =
          modifyAt s.loadBalancers i
            (fun lb => { lb with droppedRequests := lb.droppedRequests + 1 }) ∧
        (processArrival (some i) h s).2.totals =
          { s.totals with droppedLb := s.totals.droppedLb + 1 } ∧
        ((processArrival (some i) h s).1 rid).status = RequestStatus.failed ∧
        ((processArrival (some i) h s).1 rid).failureReason = some reason ∧
        (processArrival (some i) h s).2.log =
          pushLogList s.log
            { id := rid, timeMs := s.timeMs, status := RequestStatus.failed,
              message := s!"Request {rid} rejected: {reason}",
              lbId := some leader.id })) ∧
    ((stepSimulation initialHeap state6 100).2.loadBalancers.map
        (fun lb => (lb.queue.length, lb.droppedRequests)) = [(1, 1)] ∧
      (stepSimulation initialHeap state6 100).2.totals.droppedLb = 1 ∧
      ((stepSimulation initialHeap state6 100).1 1).status = RequestStatus.lbQueued ∧
      ((stepSimulation initialHeap state6 100).1 2).status = RequestStatus.failed ∧
      ((stepSimulation initialHeap state6 100).1 2).failureReason =
        some "lb queue full (503)" ∧
      (stepSimulation initialHeap state6 100).2.log.map (fun e => e.id) = [2]) := by
  subst hrid
  subst hreason
  refine ⟨⟨?_, ?_⟩, by decide⟩
  · intro hlt
    have hge : ¬ (leader.queueSize ≤ leader.queue.length) := by omega
    simp [processArrival, hget, hup, hge, hset]
  · intro hge
    simp [processArrival, hget, hup, hge, hset]

/-- Witness for C6 at concrete inputs (admit at `baseState`, drop at
`stateFull`). -/
theorem c6_witness :
    (processArrival (some 0) initialHeap baseState).2.totals = baseState.totals ∧
    ((processArrival (some 0) initialHeap stateFull).1 stateFull.nextRequestId).failureReason =
      some "lb queue full (503)" :=
  ⟨((c6_admission 0 testLb initialHeap baseState baseState.nextRequestId
      "lb queue full (503)" rfl rfl rfl rfl).1.1 (by decide)).2.1,
   ((c6_admission 0 lbFull initialHeap stateFull stateFull.nextRequestId
      "lb queue full (503)" rfl rfl rfl rfl).1.2 (by decide)).2.2.2.1⟩

/-! ### C10 — failure-counter bucketing -/

/-- A server with both its in-flight list and its queue full. -/
def fullServer : ServerState :=
  { testServer with inflight := [11, 12], queue := [13, 14] }

/-- A request sitting in the leader's admission queue. -/
def req10 : Request :=
  { id := 1, arrivalTimeMs := 0, lbQueueEnterMs := some 0,
    status := RequestStatus.lbQueued }

/-- Store holding `req10`. -/
def heap10 : Heap := hset initialHeap 1 req10

/-- State whose only server is completely full and whose leader holds one
queued request. -/
def state10 : SimulationState :=
  { baseState with
    servers := [fullServer]
    loadBalancers := [({ testLb with queue := [1] } : LoadBalancerState)] }

/-- C10 counterexample: when the only server's queue AND in-flight list are
both full, the drained request does not fail with the server-queue-full
reason at all — the full server fails the live-availability filter, so the
request fails at selection with "no available servers", and neither
`totals.droppedServer` nor the server's `totalFailed` moves.  The
server-queue-full increment pattern the claim describes is unreachable. -/
theorem c10_counterexample :
    (state10.servers.getD 0 testServer).serverQueueSize ≤
      (state10.servers.getD 0 testServer).queue.length ∧
    (state10.servers.getD 0 testServer).maxConcurrentRequests ≤
      (state10.servers.getD 0 testServer).inflight.length ∧
    ((drainOne 0 0 heap10 state10).2.1 1).failureReason = some "no available servers" ∧
    ¬ (((drainOne 0 0 heap10 state10).2.1 1).failureReason =
        some "server queue full (503)") ∧
    (drainOne 0 0 heap10 state10).2.2.totals.droppedServer =
      state10.totals.droppedServer ∧
    (drainOne 0 0 heap10 state10).2.2.servers.map (fun srv => srv.totalFailed) = [0] := by
  decide

/-- C10 amended: an admission drop increments the leader's
`droppedRequests` and the global `droppedLb` but leaves `totals.failed`
(and `totals.droppedServer`) unchanged; and the server-queue-full branch
(which would increment `failed`, `droppedServer` and the server's
`totalFailed` simultaneously) is unreachable, because any server passing
the live availability check has spare in-flight capacity or spare queue
space. -/
theorem c10_failure_buckets_amended :
    (∀ (i : ℕ) (leader : LoadBalancerState) (h : Heap) (s : SimulationState),
       s.loadBalancers[i]? = some leader → leader.isUp = true →
       leader.queueSize ≤ leader.queue.length →
       (processArrival (some i) h s).2.totals.failed = s.totals.failed ∧
       (processArrival (some i) h s).2.totals.droppedLb = s.totals.droppedLb + 1 ∧
       (processArrival (some i) h s).2.totals.droppedServer = s.totals.droppedServer ∧
       (processArrival (some i) h s).2.loadBalancers =
         modifyAt s.loadBalancers i
           (fun lb => { lb with droppedRequests := lb.droppedRequests + 1 })) ∧
    (∀ (server : ServerState) (t : ℚ), isServerAvailable server t = true →
       server.inflight.length < server.maxConcurrentRequests ∨
       server.queue.length < server.serverQueueSize) := by
  constructor
  · intro i leader h s hget hup hge
    simp [processArrival, hget, hup, hge]
  · intro server t hav
    simp only [isServerAvailable] at hav
    split_ifs at hav
    simpa using hav

/-- Witness for C10's amended statement at concrete inputs. -/
theorem c10_witness :
    ((processArrival (some 0) initialHeap stateFull).2.totals.failed =
       stateFull.totals.failed ∧
     (processArrival (some 0) initialHeap stateFull).2.totals.droppedLb =
       stateFull.totals.droppedLb + 1 ∧
     (processArrival (some 0) initialHeap stateFull).2.totals.droppedServer =
       stateFull.totals.droppedServer ∧
     (processArrival (some 0) initialHeap stateFull).2.loadBalancers =
       modifyAt stateFull.loadBalancers 0
         (fun lb => { lb with droppedRequests := lb.droppedRequests + 1 })) ∧
    (testServer.inflight.length < testServer.maxConcurrentRequests ∨
     testServer.queue.length < testServer.serverQueueSize) :=
  ⟨c10_failure_buckets_amended.1 0 lbFull initialHeap stateFull rfl rfl (by decide),
   c10_failure_buckets_amended.2 testServer 0 (by decide)⟩

/-! ### C5 — drain budget -/

/-- Each drain iteration increases the dispatched count by at most one. -/
theorem drainOne_fst_le (i routed : ℕ) (h : Heap) (s : SimulationState) :
    (drainOne i routed h s).1 ≤ routed + 1 := by
  unfold drainOne
  repeat' (first | split | dsimp only)
  all_goals omega

/-- The drain loop never pushes the dispatched count past `maxPerTick`
(or its starting value, if that is already larger). -/
theorem drainLoop_fst_le (i maxPerTick : ℕ) (fuel : ℕ) :
    ∀ (routed : ℕ) (h : Heap) (s : SimulationState),
      (drainLoop i maxPerTick fuel routed h s).1 ≤ max routed maxPerTick := by
  induction fuel with
  | zero => intro routed h s; simp [drainLoop]
  | succ n ih =>
    intro routed h s
    cases hg : s.loadBalancers[i]? with
    | none => simp [drainLoop, hg]
    | some leader =>
      simp only [drainLoop, List.get?_eq_getElem?, hg]
      split_ifs with hcond
      · have hone := drainOne_fst_le i routed h s
        have hrec := ih (drainOne i routed h s).1 (drainOne i routed h s).2.1
          (drainOne i routed h s).2.2
        have hlt : routed < maxPerTick := hcond.2.1
        omega
      · simp

/-- `modifyAt` with a function that does not change the observation `g`
preserves the `g`-image of the list. -/
theorem map_modifyAt_invariant {α β : Type} (l : List α) (i : ℕ) (f : α → α)
    (g : α → β) (hf : ∀ x, g (f x) = g x) :
    (modifyAt l i f).map g = l.map g := by
  induction l generalizing i with
  | nil => rfl
  | cons x xs ih =>
    cases i with
    | zero => simp [modifyAt, hf]
    | succ n => simp [modifyAt, ih]

/-- `ensureLeader` does not touch the load-balancer list. -/
theorem ensureLeader_loadBalancers (s : SimulationState) :
    (ensureLeader s).2.loadBalancers = s.loadBalancers := by
  unfold ensureLeader
  repeat' (first | split | dsimp only)

/-- Snapshot refreshes do not touch `activeConnections`. -/
theorem updateAllSnapshots_active (t iv d : ℚ) (lbs : List LoadBalancerState)
    (servers : List ServerState) :
    ((updateAllSnapshots t iv d lbs servers).1).map (·.activeConnections) =
      lbs.map (·.activeConnections) := by
  induction lbs generalizing servers with
  | nil => rfl
  | cons lb rest ih =>
    simp only [updateAllSnapshots, List.map_cons]
    rw [ih]
    congr 1
    unfold updateHealthSnapshot
    split <;> rfl

/-- The arrival loop does not touch `activeConnections`. -/
theorem processArrivals_active (leaderIdx : Option ℕ) (n : ℕ) :
    ∀ (h : Heap) (s : SimulationState),
      ((processArrivals leaderIdx n h s).2.loadBalancers).map (·.activeConnections) =
        s.loadBalancers.map (·.activeConnections) := by
  induction n with
  | zero => intro h s; rfl
  | succ n ih =>
    intro h s
    simp only [processArrivals]
    rw [ih]
    unfold processArrival
    repeat' (first | split | dsimp only)
    all_goals (apply map_modifyAt_invariant; intro x; rfl)

/-- C5 amended: in each step the leader dispatches at most
`⌊maxConnectionsPerSecond × Δt / 1000⌋` requests; the concurrency bound is
applied against an `activeConnections` counter that is reset to 0 at the
start of every step (so it counts only same-step dispatches, not
connections still held by previously dispatched uncompleted requests). -/
theorem c5_drain_budget_amended :
    (∀ (dtMs : ℚ) (h : Heap) (s : SimulationState) (i : ℕ)
       (leader : LoadBalancerState),
       s.loadBalancers[i]? = some leader →
       (drainPhase (some i) dtMs h s).1 ≤
         Int.toNat ⌊leader.maxConnectionsPerSecond * dtMs / 1000⌋) ∧
    (∀ (h : Heap) (prev : SimulationState) (dtMs : ℚ),
       stepDispatched h prev dtMs =
         (drainPhase (preDrain h prev dtMs).1 dtMs (preDrain h prev dtMs).2.1
           (preDrain h prev dtMs).2.2).1) ∧
    (∀ (h : Heap) (prev : SimulationState) (dtMs : ℚ),
       ∀ lb ∈ (preDrain h prev dtMs).2.2.loadBalancers, lb.activeConnections = 0) := by
  refine ⟨?_, fun h prev dtMs => rfl, ?_⟩
  · intro dtMs h s i leader hget
    by_cases hup : leader.isUp
    · have hb := drainLoop_fst_le i
        (Int.toNat ⌊leader.maxConnectionsPerSecond * dtMs / 1000⌋)
        leader.queue.length 0 h s
      unfold drainPhase
      simp only [List.get?_eq_getElem?]
      rw [hget]
      simp only [hup, if_true]
      simpa using hb
    · unfold drainPhase
      simp only [List.get?_eq_getElem?]
      rw [hget]
      simp [hup]
  · intro h prev dtMs lb hmem
    have hmap : ((preDrain h prev dtMs).2.2.loadBalancers).map (·.activeConnections) =
        prev.loadBalancers.map (fun _ => 0) := by
      unfold preDrain
      dsimp only
      rw [processArrivals_active]
      dsimp only
      rw [updateAllSnapshots_active]
      rw [ensureLeader_loadBalancers]
      dsimp only
      induction prev.loadBalancers with
      | nil => rfl
      | cons a l ih => simp_all
    have hin : lb.activeConnections ∈
        ((preDrain h prev dtMs).2.2.loadBalancers).map (·.activeConnections) :=
      List.mem_map_of_mem _ hmem
    rw [hmap] at hin
    simp only [List.mem_map] at hin
    obtain ⟨a, _, ha⟩ := hin
    omega

/-- Witness for C5's amended statement at a concrete input. -/
theorem c5_witness :
    (state5.loadBalancers[0]? =
       some ({ testLb with
         maxConnectionsPerSecond := 20
         maxConcurrentConnections := 1
         activeConnections := 1
         queue := [1] } : LoadBalancerState)) ∧
    (drainPhase (some 0) 50 heap5 state5).1 ≤
      Int.toNat ⌊(({ testLb with
         maxConnectionsPerSecond := 20
         maxConcurrentConnections := 1
         activeConnections := 1
         queue := [1] } : LoadBalancerState)).maxConnectionsPerSecond * 50 / 1000⌋ ∧
    ((preDrain initialHeap state5 50).2.2.loadBalancers.getD 0 testLb ∈
       (preDrain initialHeap state5 50).2.2.loadBalancers) ∧
    ((preDrain initialHeap state5 50).2.2.loadBalancers.getD 0 testLb).activeConnections = 0 :=
  ⟨rfl,
   c5_drain_budget_amended.1 50 heap5 state5 0 _ rfl,
   by decide,
   c5_drain_budget_amended.2.2 initialHeap state5 50 _ (by decide)⟩


/-! ### C2 — capacity bounds -/

/-- The per-server capacity bounds of the claim. -/
def serverBounds (srv : ServerState) : Prop :=
  srv.inflight.length ≤ srv.maxConcurrentRequests ∧
  srv.queue.length ≤ srv.serverQueueSize

/-- The whole-state capacity bounds of the claim. -/
def stateBounds (s : SimulationState) : Prop :=
  (∀ srv ∈ s.servers, serverBounds srv) ∧
  (∀ lb ∈ s.loadBalancers, lb.queue.length ≤ lb.queueSize)

/-- Elements of `modifyAt l i f` come from `l`, except possibly `f` of the
element at `i`. -/
theorem mem_modifyAt {α : Type} {l : List α} {i : ℕ} {f : α → α} {x : α}
    (hx : x ∈ modifyAt l i f) : x ∈ l ∨ ∃ y, l[i]? = some y ∧ x = f y := by
  induction l generalizing i with
  | nil => simp [modifyAt] at hx
  | cons a xs ih =>
    cases i with
    | zero =>
      simp only [modifyAt, List.mem_cons] at hx
      rcases hx with hx | hx
      · exact Or.inr ⟨a, by simp, hx⟩
      · exact Or.inl (List.mem_cons_of_mem _ hx)
    | succ n =>
      simp only [modifyAt, List.mem_cons] at hx
      rcases hx with hx | hx
      · exact Or.inl (by simp [hx])
      · rcases ih hx with hmem | ⟨y, hy, hxy⟩
        · exact Or.inl (List.mem_cons_of_mem _ hmem)
        · exact Or.inr ⟨y, by simpa using hy, hxy⟩

/-- Elements of `updateFirst l p f` come from `l`, except possibly `f` of
the first `p`-match. -/
theorem mem_updateFirst {α : Type} {l : List α} {p : α → Bool} {f : α → α} {x : α}
    (hx : x ∈ updateFirst l p f) : x ∈ l ∨ ∃ y, l.find? p = some y ∧ x = f y := by
  induction l with
  | nil => simp [updateFirst] at hx
  | cons a xs ih =>
    by_cases hp : p a
    · simp only [updateFirst, hp, if_true, List.mem_cons] at hx
      rcases hx with hx | hx
      · exact Or.inr ⟨a, by simp [List.find?, hp], hx⟩
      · exact Or.inl (List.mem_cons_of_mem _ hx)
    · simp [updateFirst, hp] at hx
      rcases hx with hx | hx
      · exact Or.inl (by simp [hx])
      · rcases ih hx with hmem | ⟨y, hy, hxy⟩
        · exact Or.inl (List.mem_cons_of_mem _ hmem)
        · refine Or.inr ⟨y, ?_, hxy⟩
          rw [List.find?]
          simp [hp, hy]

/-- `updateFirst` with a function not changing the observation `g`
preserves the `g`-image of the list. -/
theorem map_updateFirst_invariant {α β : Type} (l : List α) (p : α → Bool)
    (f : α → α) (g : α → β) (hf : ∀ x, g (f x) = g x) :
    (updateFirst l p f).map g = l.map g := by
  induction l with
  | nil => rfl
  | cons a xs ih =>
    by_cases hp : p a
    · simp [updateFirst, hp, hf]
    · simp [updateFirst, hp, ih]

/-- Transfer a pointwise property along a `g`-image equality. -/
theorem forall_mem_of_map_eq {α β : Type} {g : α → β} {P : β → Prop}
    {l l' : List α} (hmap : l'.map g = l.map g) (hP : ∀ x ∈ l, P (g x)) :
    ∀ x ∈ l', P (g x) := by
  intro x hx
  have hg : g x ∈ l'.map g := List.mem_map_of_mem _ hx
  rw [hmap] at hg
  simp only [List.mem_map] at hg
  obtain ⟨a, ha, heq⟩ := hg
  rw [← heq]
  exact hP a ha

/-- `ensureLeader` does not touch the server list. -/
theorem ensureLeader_servers (s : SimulationState) :
    (ensureLeader s).2.servers = s.servers := by
  unfold ensureLeader
  repeat' (first | split | dsimp only)

/-- Queue-bound preservation through `modifyAt`, given a bound on the
modified slot. -/
theorem lb_bounds_modifyAt {l : List LoadBalancerState} {i : ℕ}
    {f : LoadBalancerState → LoadBalancerState}
    (hb : ∀ lb ∈ l, lb.queue.length ≤ lb.queueSize)
    (hf : ∀ y, l[i]? = some y → (f y).queue.length ≤ (f y).queueSize) :
    ∀ lb ∈ modifyAt l i f, lb.queue.length ≤ lb.queueSize := by
  intro lb hlb
  rcases mem_modifyAt hlb with hmem | ⟨y, hy, rfl⟩
  · exact hb lb hmem
  · exact hf y hy

/-- Queue-bound preservation through `modifyAt` with a queue-preserving
update. -/
theorem lb_bounds_modifyAt_preserve {l : List LoadBalancerState} {i : ℕ}
    {f : LoadBalancerState → LoadBalancerState}
    (hb : ∀ lb ∈ l, lb.queue.length ≤ lb.queueSize)
    (hf : ∀ y, (f y).queue = y.queue ∧ (f y).queueSize = y.queueSize) :
    ∀ lb ∈ modifyAt l i f, lb.queue.length ≤ lb.queueSize :=
  lb_bounds_modifyAt hb (fun y hy => by
    rw [(hf y).1, (hf y).2]
    exact hb y (List.getElem?_mem hy))

/-- Server-bound preservation through `updateFirst`, given a bound on the
modified server. -/
theorem srv_bounds_updateFirst {l : List ServerState} {p : ServerState → Bool}
    {f : ServerState → ServerState}
    (hb : ∀ srv ∈ l, serverBounds srv)
    (hf : ∀ y, l.find? p = some y → serverBounds (f y)) :
    ∀ srv ∈ updateFirst l p f, serverBounds srv := by
  intro srv hsrv
  rcases mem_updateFirst hsrv with hmem | ⟨y, hy, rfl⟩
  · exact hb srv hmem
  · exact hf y hy

/-- Server-bound preservation through `updateFirst` with a
capacity-preserving update. -/
theorem srv_bounds_updateFirst_preserve {l : List ServerState}
    {p : ServerState → Bool} {f : ServerState → ServerState}
    (hb : ∀ srv ∈ l, serverBounds srv)
    (hf : ∀ y, (f y).inflight = y.inflight ∧
      (f y).maxConcurrentRequests = y.maxConcurrentRequests ∧
      (f y).queue = y.queue ∧ (f y).serverQueueSize = y.serverQueueSize) :
    ∀ srv ∈ updateFirst l p f, serverBounds srv :=
  srv_bounds_updateFirst hb (fun y hy => by
    have hym := List.mem_of_find?_eq_some hy
    have := hb y hym
    unfold serverBounds at *
    rw [(hf y).1, (hf y).2.1, (hf y).2.2.1, (hf y).2.2.2]
    exact this)

/-- One drain iteration preserves the capacity bounds. -/
theorem drainOne_bounds (i routed : ℕ) (h : Heap) (s : SimulationState)
    (hbs : ∀ srv ∈ s.servers, serverBounds srv)
    (hbl : ∀ lb ∈ s.loadBalancers, lb.queue.length ≤ lb.queueSize) :
    (∀ srv ∈ (drainOne i routed h s).2.2.servers, serverBounds srv) ∧
    (∀ lb ∈ (drainOne i routed h s).2.2.loadBalancers, lb.queue.length ≤ lb.queueSize) := by
  unfold drainOne
  cases hget : s.loadBalancers.get? i with
  | none => exact ⟨hbs, hbl⟩
  | some leader =>
    dsimp only
    have hget2 : s.loadBalancers[i]? = some leader := by
      rw [← List.get?_eq_getElem?]; exact hget
    have hlmem : leader ∈ s.loadBalancers := List.getElem?_mem hget2
    cases hq : leader.queue with
    | nil => try rw [hq]
             exact ⟨hbs, hbl⟩
    | cons rid restQ =>
      try rw [hq]
      dsimp only
      have hq_bound : restQ.length + 1 ≤ leader.queueSize := by
        have hx := hbl leader hlmem
        rw [hq] at hx
        simpa using hx
      repeat' (first | split | dsimp only)
      all_goals refine ⟨?_, ?_⟩
      all_goals first
        | exact hbs
        | exact hbl
        | (refine srv_bounds_updateFirst_preserve hbs (fun y => ⟨rfl, rfl, rfl, rfl⟩))
        | (refine srv_bounds_updateFirst hbs (fun y hy => ?_)
           have hym := List.mem_of_find?_eq_some hy
           have hyb := hbs y hym
           unfold serverBounds at *
           simp_all
           try omega)
        | (repeat' first
            | exact hbl
            | (refine lb_bounds_modifyAt_preserve ?_ (fun y => ⟨rfl, rfl⟩))
            | (refine lb_bounds_modifyAt hbl (fun y hy => ?_)
               have hyl : y = leader := by
                 rw [hget2] at hy
                 exact (Option.some.inj hy).symm
               subst hyl
               dsimp only
               omega))

/-- Map-level invariance of a composed map. -/
theorem map_map_invariant {α β : Type} (l : List α) (f : α → α) (g : α → β)
    (hf : ∀ x, g (f x) = g x) : (l.map f).map g = l.map g := by
  induction l with
  | nil => rfl
  | cons a xs ih => simp [hf, ih]

/-- The capacity observation of a server. -/
def srvObs (srv : ServerState) : ℕ × ℕ × ℕ × ℕ :=
  (srv.inflight.length, srv.maxConcurrentRequests, srv.queue.length, srv.serverQueueSize)

/-- The queue observation of a load balancer. -/
def lbObs (lb : LoadBalancerState) : ℕ × ℕ := (lb.queue.length, lb.queueSize)

/-- A snapshot refresh does not change server capacities or occupancy. -/
theorem updateHealthSnapshot_srvObs (lb : LoadBalancerState)
    (servers : List ServerState) (t iv d : ℚ) :
    ((updateHealthSnapshot lb servers t iv d).2).map srvObs = servers.map srvObs := by
  unfold updateHealthSnapshot
  split
  · rfl
  · dsimp only
    apply map_map_invariant
    intro x
    split <;> rfl

/-- A snapshot refresh does not change the LB's queue or capacity. -/
theorem updateHealthSnapshot_lbObs (lb : LoadBalancerState)
    (servers : List ServerState) (t iv d : ℚ) :
    lbObs ((updateHealthSnapshot lb servers t iv d).1) = lbObs lb := by
  unfold updateHealthSnapshot
  split <;> rfl

/-- The snapshot-refresh pass preserves the server capacity observation. -/
theorem updateAllSnapshots_srvObs (t iv d : ℚ) (lbs : List LoadBalancerState) :
    ∀ servers : List ServerState,
      ((updateAllSnapshots t iv d lbs servers).2).map srvObs = servers.map srvObs := by
  induction lbs with
  | nil => intro servers; rfl
  | cons lb rest ih =>
    intro servers
    simp only [updateAllSnapshots]
    rw [ih, updateHealthSnapshot_srvObs]

/-- The snapshot-refresh pass preserves the LB queue observation. -/
theorem updateAllSnapshots_lbObs (t iv d : ℚ) (lbs : List LoadBalancerState) :
    ∀ servers : List ServerState,
      ((updateAllSnapshots t iv d lbs servers).1).map lbObs = lbs.map lbObs := by
  induction lbs with
  | nil => intro servers; rfl
  | cons lb rest ih =>
    intro servers
    simp only [updateAllSnapshots, List.map_cons]
    rw [ih, updateHealthSnapshot_lbObs]

/-- The arrival loop does not touch the server list. -/
theorem processArrival_servers (li : Option ℕ) (h : Heap) (s : SimulationState) :
    (processArrival li h s).2.servers = s.servers := by
  unfold processArrival
  repeat' (first | split | dsimp only)

/-- One arrival preserves the LB queue bounds. -/
theorem processArrival_lb_bounds (li : Option ℕ) (h : Heap) (s : SimulationState)
    (hbl : ∀ lb ∈ s.loadBalancers, lb.queue.length ≤ lb.queueSize) :
    ∀ lb ∈ (processArrival li h s).2.loadBalancers, lb.queue.length ≤ lb.queueSize := by
  unfold processArrival
  repeat' (first | split | dsimp only)
  all_goals first
    | exact hbl
    | (refine lb_bounds_modifyAt_preserve hbl (fun y => ⟨rfl, rfl⟩))
    | (refine lb_bounds_modifyAt hbl (fun y hy => ?_)
       dsimp only
       rename_i leader heq hup hfull
       have hyl : y = leader := by
         rw [← List.get?_eq_getElem?] at hy
         rw [heq] at hy
         exact (Option.some.inj hy).symm
       subst hyl
       simp
       omega)

/-- The whole arrival loop preserves both capacity bounds. -/
theorem processArrivals_bounds (li : Option ℕ) (n : ℕ) :
    ∀ (h : Heap) (s : SimulationState),
      (∀ srv ∈ s.servers, serverBounds srv) →
      (∀ lb ∈ s.loadBalancers, lb.queue.length ≤ lb.queueSize) →
      (∀ srv ∈ (processArrivals li n h s).2.servers, serverBounds srv) ∧
      (∀ lb ∈ (processArrivals li n h s).2.loadBalancers, lb.queue.length ≤ lb.queueSize) := by
  induction n with
  | zero => intro h s hbs hbl; exact ⟨hbs, hbl⟩
  | succ n ih =>
    intro h s hbs hbl
    simp only [processArrivals]
    exact ih _ _ (by rw [processArrival_servers]; exact hbs)
      (processArrival_lb_bounds li h s hbl)

/-- The drain loop preserves both capacity bounds. -/
theorem drainLoop_bounds (i maxPerTick : ℕ) (fuel : ℕ) :
    ∀ (routed : ℕ) (h : Heap) (s : SimulationState),
      (∀ srv ∈ s.servers, serverBounds srv) →
      (∀ lb ∈ s.loadBalancers, lb.queue.length ≤ lb.queueSize) →
      (∀ srv ∈ (drainLoop i maxPerTick fuel routed h s).2.2.servers, serverBounds srv) ∧
      (∀ lb ∈ (drainLoop i maxPerTick fuel routed h s).2.2.loadBalancers,
        lb.queue.length ≤ lb.queueSize) := by
  induction fuel with
  | zero => intro routed h s hbs hbl; exact ⟨hbs, hbl⟩
  | succ n ih =>
    intro routed h s hbs hbl
    cases hg : s.loadBalancers[i]? with
    | none => simp only [drainLoop, List.get?_eq_getElem?, hg]; exact ⟨hbs, hbl⟩
    | some leader =>
      simp only [drainLoop, List.get?_eq_getElem?, hg]
      split_ifs with hcond
      · have hone := drainOne_bounds i routed h s hbs hbl
        exact ih _ _ _ hone.1 hone.2
      · exact ⟨hbs, hbl⟩

/-- The drain phase preserves both capacity bounds. -/
theorem drainPhase_bounds (li : Option ℕ) (dtMs : ℚ) (h : Heap) (s : SimulationState)
    (hbs : ∀ srv ∈ s.servers, serverBounds srv)
    (hbl : ∀ lb ∈ s.loadBalancers, lb.queue.length ≤ lb.queueSize) :
    (∀ srv ∈ (drainPhase li dtMs h s).2.2.servers, serverBounds srv) ∧
    (∀ lb ∈ (drainPhase li dtMs h s).2.2.loadBalancers, lb.queue.length ≤ lb.queueSize) := by
  cases li with
  | none => exact ⟨hbs, hbl⟩
  | some i =>
    unfold drainPhase
    dsimp only
    cases hg : s.loadBalancers.get? i with
    | none => try rw [hg]
              exact ⟨hbs, hbl⟩
    | some leader =>
      try rw [hg]
      dsimp only
      split_ifs with hup
      · exact drainLoop_bounds i _ _ 0 h s hbs hbl
      · exact ⟨hbs, hbl⟩

/-- Promotion keeps the promoted server within its capacity bounds. -/
theorem promoteLoop_bounds (alpha timeMs : ℚ) (fuel : ℕ) :
    ∀ (server : ServerState) (acc : SrvAcc), serverBounds server →
      serverBounds (promoteLoop alpha timeMs fuel server acc).1 := by
  induction fuel with
  | zero => intro server acc hb; exact hb
  | succ n ih =>
    intro server acc hb
    simp only [promoteLoop]
    split_ifs with hcond
    · cases hqm : server.queue with
      | nil => try rw [hqm]
               exact hb
      | cons rid restQ =>
        try rw [hqm]
        dsimp only
        apply ih
        constructor
        · have := hcond.2
          simp only [List.length_append, List.length_cons, List.length_nil]
          omega
        · have := hb.2
          rw [hqm] at this
          simp only [List.length_cons] at this
          simp only [List.length_cons]
          omega
    · exact hb

/-- Promotion leaves the accumulator's load balancers untouched. -/
theorem promoteLoop_lbs (alpha timeMs : ℚ) (fuel : ℕ) :
    ∀ (server : ServerState) (acc : SrvAcc),
      (promoteLoop alpha timeMs fuel server acc).2.loadBalancers = acc.loadBalancers := by
  induction fuel with
  | zero => intro server acc; rfl
  | succ n ih =>
    intro server acc
    simp only [promoteLoop]
    split_ifs with hcond
    · cases hqm : server.queue with
      | nil =>
        try rw [hqm]
        rfl
      | cons rid restQ =>
        try rw [hqm]
        dsimp only
        rw [ih]
    · rfl

/-- The progress loop only changes the server's counters and EWMA. -/
theorem progressLoop_server_obs (alpha timeMs dtMs : ℚ) (lst : List ℕ) :
    ∀ (server : ServerState) (still : List ℕ) (acc : SrvAcc),
      srvObs (progressLoop alpha timeMs dtMs lst server still acc).1 = srvObs server := by
  induction lst with
  | nil => intro server still acc; rfl
  | cons rid rest ih =>
    intro server still acc
    simp only [progressLoop]
    split_ifs with hdone
    · rw [ih]; rfl
    · rw [ih]

/-- The surviving in-flight list is no longer than the input lists. -/
theorem progressLoop_still_le (alpha timeMs dtMs : ℚ) (lst : List ℕ) :
    ∀ (server : ServerState) (still : List ℕ) (acc : SrvAcc),
      (progressLoop alpha timeMs dtMs lst server still acc).2.1.length ≤
        still.length + lst.length := by
  induction lst with
  | nil => intro server still acc; simp [progressLoop]
  | cons rid rest ih =>
    intro server still acc
    simp only [progressLoop]
    split_ifs with hdone
    · refine le_trans (ih _ _ _) ?_
      simp only [List.length_cons]
      omega
    · refine le_trans (ih _ _ _) ?_
      simp only [List.length_append, List.length_cons, List.length_nil]
      omega

/-- The progress loop preserves the LB queue observation. -/
theorem progressLoop_lbObs (alpha timeMs dtMs : ℚ) (lst : List ℕ) :
    ∀ (server : ServerState) (still : List ℕ) (acc : SrvAcc),
      ((progressLoop alpha timeMs dtMs lst server still acc).2.2.loadBalancers).map lbObs =
        acc.loadBalancers.map lbObs := by
  induction lst with
  | nil => intro server still acc; rfl
  | cons rid rest ih =>
    intro server still acc
    simp only [progressLoop]
    split_ifs with hdone
    · rw [ih]
      dsimp only
      split
      · apply map_updateFirst_invariant
        intro x
        rfl
      · rfl
    · rw [ih]

/-- The per-server pass preserves server bounds and the LB queue
observation. -/
theorem serversPhase_bounds (alpha timeMs dtMs : ℚ) (servers : List ServerState) :
    ∀ acc : SrvAcc, (∀ srv ∈ servers, serverBounds srv) →
      (∀ srv ∈ (serversPhase alpha timeMs dtMs servers acc).1, serverBounds srv) ∧
      ((serversPhase alpha timeMs dtMs servers acc).2.loadBalancers).map lbObs =
        acc.loadBalancers.map lbObs := by
  induction servers with
  | nil => intro acc hbs; exact ⟨by simp [serversPhase], rfl⟩
  | cons server rest ih =>
    intro acc hbs
    simp only [serversPhase]
    constructor
    · intro srv hsrv
      simp only [List.mem_cons] at hsrv
      rcases hsrv with rfl | hsrv
      · -- the head server after promote + progress + inflight := still
        have hpb : serverBounds
            (promoteLoop alpha timeMs server.queue.length server acc).1 :=
          promoteLoop_bounds alpha timeMs _ server acc
            (hbs server (List.mem_cons_self _ _))
        have hobs := progressLoop_server_obs alpha timeMs dtMs
          (promoteLoop alpha timeMs server.queue.length server acc).1.inflight
          (promoteLoop alpha timeMs server.queue.length server acc).1 []
          (promoteLoop alpha timeMs server.queue.length server acc).2
        have hstill := progressLoop_still_le alpha timeMs dtMs
          (promoteLoop alpha timeMs server.queue.length server acc).1.inflight
          (promoteLoop alpha timeMs server.queue.length server acc).1 []
          (promoteLoop alpha timeMs server.queue.length server acc).2
        unfold serverBounds at *
        unfold srvObs at hobs
        dsimp only
        constructor
        · simp only [Prod.mk.injEq] at hobs
          simp only [List.length_nil] at hstill
          omega
        · simp only [Prod.mk.injEq] at hobs
          omega
      · exact (ih _ (fun x hx => hbs x (List.mem_cons_of_mem _ hx))).1 srv hsrv
    · rw [(ih _ (fun x hx => hbs x (List.mem_cons_of_mem _ hx))).2]
      rw [progressLoop_lbObs]
      rw [promoteLoop_lbs]

/-- Transfer server bounds along a capacity-observation equality. -/
theorem srv_bounds_of_obs_eq {l l' : List ServerState}
    (hmap : l'.map srvObs = l.map srvObs)
    (hb : ∀ srv ∈ l, serverBounds srv) : ∀ srv ∈ l', serverBounds srv := by
  intro srv hsrv
  have hg : srvObs srv ∈ l'.map srvObs := List.mem_map_of_mem _ hsrv
  rw [hmap] at hg
  simp only [List.mem_map] at hg
  obtain ⟨a, ha, heq⟩ := hg
  have hba := hb a ha
  unfold serverBounds at *
  unfold srvObs at heq
  simp only [Prod.mk.injEq] at heq
  omega

/-- Transfer LB queue bounds along a queue-observation equality. -/
theorem lb_bounds_of_obs_eq {l l' : List LoadBalancerState}
    (hmap : l'.map lbObs = l.map lbObs)
    (hb : ∀ lb ∈ l, lb.queue.length ≤ lb.queueSize) :
    ∀ lb ∈ l', lb.queue.length ≤ lb.queueSize := by
  intro lb hlb
  have hg : lbObs lb ∈ l'.map lbObs := List.mem_map_of_mem _ hlb
  rw [hmap] at hg
  simp only [List.mem_map] at hg
  obtain ⟨a, ha, heq⟩ := hg
  have hba := hb a ha
  unfold lbObs at heq
  simp only [Prod.mk.injEq] at heq
  omega

/-- The pre-drain phases preserve both capacity bounds. -/
theorem preDrain_bounds (h : Heap) (prev : SimulationState) (dtMs : ℚ)
    (hb : stateBounds prev) :
    (∀ srv ∈ (preDrain h prev dtMs).2.2.servers, serverBounds srv) ∧
    (∀ lb ∈ (preDrain h prev dtMs).2.2.loadBalancers, lb.queue.length ≤ lb.queueSize) := by
  obtain ⟨hbs, hbl⟩ := hb
  unfold preDrain
  dsimp only
  refine processArrivals_bounds _ _ _ _ ?_ ?_
  · refine srv_bounds_of_obs_eq ?_ hbs
    dsimp only
    rw [updateAllSnapshots_srvObs]
    rw [ensureLeader_servers]
  · refine lb_bounds_of_obs_eq ?_ hbl
    dsimp only
    rw [updateAllSnapshots_lbObs]
    rw [ensureLeader_loadBalancers]
    dsimp only
    apply map_map_invariant
    intro x
    rfl

/-- C2: a step from any state satisfying the capacity bounds yields a state
in which every server has `inflight.length ≤ maxConcurrentRequests` and
`queue.length ≤ serverQueueSize`, and every LB has
`queue.length ≤ queueSize`. -/
theorem c2_capacity_bound (h : Heap) (prev : SimulationState) (dtMs : ℚ)
    (hb : stateBounds prev) : stateBounds (stepSimulation h prev dtMs).2 := by
  have hpre := preDrain_bounds h prev dtMs hb
  have hdr := drainPhase_bounds (preDrain h prev dtMs).1 dtMs
    (preDrain h prev dtMs).2.1 (preDrain h prev dtMs).2.2 hpre.1 hpre.2
  unfold stepSimulation
  dsimp only
  constructor
  · intro srv hsrv
    exact (serversPhase_bounds _ _ dtMs _ _ hdr.1).1 srv hsrv
  · intro lb hlb
    refine lb_bounds_of_obs_eq ?_ hdr.2 lb hlb
    exact (serversPhase_bounds _ _ dtMs _ _ hdr.1).2

/-- Witness for C2 at a concrete state. -/
theorem c2_witness :
    stateBounds baseState ∧ stateBounds (stepSimulation initialHeap baseState 50).2 := by
  have hbase : stateBounds baseState := by
    constructor
    · intro srv hsrv
      simp only [baseState, List.mem_singleton] at hsrv
      subst hsrv
      exact ⟨by decide, by decide⟩
    · intro lb hlb
      simp only [baseState, List.mem_singleton] at hlb
      subst hlb
      decide
  exact ⟨hbase, c2_capacity_bound initialHeap baseState 50 hbase⟩

/-! ### C1 — request-count conservation -/

/-- The conservation invariant that actually holds on the code:
ids allocated = 1 + completed + failed + droppedLb + live, and
started (= entered processing) = completed + in flight. -/
def conservation (s : SimulationState) : Prop :=
  s.nextRequestId =
    1 + s.totals.completed + s.totals.failed + s.totals.droppedLb + liveCount s ∧
  s.totals.started = s.totals.completed + inflightTotal s

/-- Sum-of-observation change of `modifyAt` at an in-range index. -/
theorem sum_map_modifyAt {α : Type} (l : List α) (g : α → ℕ) (f : α → α) :
    ∀ (i : ℕ) {y : α}, l[i]? = some y →
      ((modifyAt l i f).map g).sum + g y = (l.map g).sum + g (f y) := by
  induction l with
  | nil => intro i y hy; simp at hy
  | cons a xs ih =>
    intro i y hy
    cases i with
    | zero =>
      simp only [List.getElem?_cons_zero, Option.some.injEq] at hy
      subst hy
      simp only [modifyAt, List.map_cons, List.sum_cons]
      omega
    | succ n =>
      simp only [List.getElem?_cons_succ] at hy
      simp only [modifyAt, List.map_cons, List.sum_cons]
      have := ih n hy
      omega

/-- Sum-of-observation change of `updateFirst` at a found element. -/
theorem sum_map_updateFirst {α : Type} (l : List α) (g : α → ℕ) (p : α → Bool)
    (f : α → α) :
    ∀ {y : α}, l.find? p = some y →
      ((updateFirst l p f).map g).sum + g y = (l.map g).sum + g (f y) := by
  induction l with
  | nil => intro y hy; simp at hy
  | cons a xs ih =>
    intro y hy
    by_cases hp : p a
    · rw [List.find?] at hy
      simp only [hp, Option.some.injEq] at hy
      subst hy
      simp only [updateFirst, hp, if_true, List.map_cons, List.sum_cons]
      omega
    · rw [List.find?] at hy
      simp only [hp] at hy
      simp only [updateFirst, hp, Bool.false_eq_true, if_false, List.map_cons,
        List.sum_cons]
      have := ih hy
      omega

/-- One drain iteration preserves the conservation invariant. -/
theorem drainOne_conservation (i routed : ℕ) (h : Heap) (s : SimulationState)
    (hc : conservation s) : conservation (drainOne i routed h s).2.2 := by
  unfold drainOne
  cases hget : s.loadBalancers.get? i with
  | none => exact hc
  | some leader =>
    dsimp only
    have hget2 : s.loadBalancers[i]? = some leader := by
      rw [← List.get?_eq_getElem?]; exact hget
    cases hq : leader.queue with
    | nil =>
      try rw [hq]
      exact hc
    | cons rid restQ =>
      try rw [hq]
      dsimp only
      have eshift := sum_map_modifyAt s.loadBalancers (fun lb => lb.queue.length)
        (fun lb => { lb with queue := restQ }) i hget2
      dsimp only at eshift
      rw [hq] at eshift
      simp only [List.length_cons] at eshift
      have eact : ∀ X : List LoadBalancerState,
          List.map (fun lb => lb.queue.length)
            (modifyAt X i
              (fun lb => { lb with activeConnections := lb.activeConnections + 1 })) =
          List.map (fun lb => lb.queue.length) X :=
        fun X => map_modifyAt_invariant X i _ _ (fun x => rfl)
      have edec : ∀ X : List LoadBalancerState,
          List.map (fun lb => lb.queue.length)
            (modifyAt X i
              (fun lb => { lb with activeConnections := lb.activeConnections - 1 })) =
          List.map (fun lb => lb.queue.length) X :=
        fun X => map_modifyAt_invariant X i _ _ (fun x => rfl)
      have etf : ∀ p : ServerState → Bool,
          List.map (fun server => server.queue.length + server.inflight.length)
            (updateFirst s.servers p
              (fun srv => { srv with totalFailed := srv.totalFailed + 1 })) =
          List.map (fun server => server.queue.length + server.inflight.length) s.servers :=
        fun p => map_updateFirst_invariant _ _ _ _ (fun x => rfl)
      have etfi : ∀ p : ServerState → Bool,
          List.map (fun server => server.inflight.length)
            (updateFirst s.servers p
              (fun srv => { srv with totalFailed := srv.totalFailed + 1 })) =
          List.map (fun server => server.inflight.length) s.servers :=
        fun p => map_updateFirst_invariant _ _ _ _ (fun x => rfl)
      have ecb : ∀ p : ServerState → Bool,
          List.map (fun server => server.queue.length + server.inflight.length)
            (updateFirst s.servers p
              (fun srv => { srv with
                totalFailed := srv.totalFailed + 1
                circuitBreakerUntilMs := s.timeMs + s.recoveryDelayMs })) =
          List.map (fun server => server.queue.length + server.inflight.length) s.servers :=
        fun p => map_updateFirst_invariant _ _ _ _ (fun x => rfl)
      have ecbi : ∀ p : ServerState → Bool,
          List.map (fun server => server.inflight.length)
            (updateFirst s.servers p
              (fun srv => { srv with
                totalFailed := srv.totalFailed + 1
                circuitBreakerUntilMs := s.timeMs + s.recoveryDelayMs })) =
          List.map (fun server => server.inflight.length) s.servers :=
        fun p => map_updateFirst_invariant _ _ _ _ (fun x => rfl)
      generalize hsel : ((getAlgorithm leader.routingAlgorithm).select
        { servers := s.servers,
          availableIds := availableServerIds s.servers leader.healthSnapshot s.timeMs,
          rrIndex := s.rrIndex, requestId := rid }) = sel
      obtain ⟨sidO, rsn, rrO⟩ := sel
      unfold conservation liveCount inflightTotal at hc ⊢
      obtain ⟨hc1, hc2⟩ := hc
      cases sidO with
      | none =>
        cases rrO <;> (refine ⟨?_, ?_⟩ <;> dsimp only <;> omega)
      | some sid =>
        dsimp only
        cases rrO
        all_goals
          dsimp only
          generalize hgen : List.find? (fun server => server.id == sid) s.servers = fnd
          cases fnd with
          | none =>
            refine ⟨?_, ?_⟩ <;> dsimp only <;> omega
          | some server =>
            dsimp only
            have epushg := sum_map_updateFirst s.servers
              (fun server => server.queue.length + server.inflight.length)
              (fun srv => srv.id == sid)
              (fun srv => { srv with inflight := srv.inflight ++ [rid] }) hgen
            dsimp only at epushg
            simp only [List.length_append, List.length_cons, List.length_nil] at epushg
            have epushgi := sum_map_updateFirst s.servers
              (fun server => server.inflight.length)
              (fun srv => srv.id == sid)
              (fun srv => { srv with inflight := srv.inflight ++ [rid] }) hgen
            dsimp only at epushgi
            simp only [List.length_append, List.length_cons, List.length_nil] at epushgi
            have eqpg := sum_map_updateFirst s.servers
              (fun server => server.queue.length + server.inflight.length)
              (fun srv => srv.id == sid)
              (fun srv => { srv with queue := srv.queue ++ [rid] }) hgen
            dsimp only at eqpg
            simp only [List.length_append, List.length_cons, List.length_nil] at eqpg
            have eqpi : ∀ p : ServerState → Bool,
                List.map (fun server => server.inflight.length)
                  (updateFirst s.servers p
                    (fun srv => { srv with queue := srv.queue ++ [rid] })) =
                List.map (fun server => server.inflight.length) s.servers :=
              fun p => map_updateFirst_invariant _ _ _ _ (fun x => rfl)
            split_ifs with h1 h2 h3 <;>
              (refine ⟨?_, ?_⟩ <;> dsimp only <;>
                (try rw [edec]) <;> (try rw [eact]) <;>
                (try rw [ecb]) <;> (try rw [ecbi]) <;>
                (try rw [etf]) <;> (try rw [etfi]) <;>
                (try rw [eqpi]) <;> omega)

/-- The drain loop preserves the conservation invariant. -/
theorem drainLoop_conservation (i maxPerTick : ℕ) (fuel : ℕ) :
    ∀ (routed : ℕ) (h : Heap) (s : SimulationState), conservation s →
      conservation (drainLoop i maxPerTick fuel routed h s).2.2 := by
  induction fuel with
  | zero => intro routed h s hc; exact hc
  | succ n ih =>
    intro routed h s hc
    cases hg : s.loadBalancers[i]? with
    | none => simp only [drainLoop, List.get?_eq_getElem?, hg]; exact hc
    | some leader =>
      simp only [drainLoop, List.get?_eq_getElem?, hg]
      split_ifs with hcond
      · exact ih _ _ _ (drainOne_conservation i routed h s hc)
      · exact hc

/-- The drain phase preserves the conservation invariant. -/
theorem drainPhase_conservation (li : Option ℕ) (dtMs : ℚ) (h : Heap)
    (s : SimulationState) (hc : conservation s) :
    conservation (drainPhase li dtMs h s).2.2 := by
  cases li with
  | none => exact hc
  | some i =>
    unfold drainPhase
    dsimp only
    cases hg : s.loadBalancers.get? i with
    | none =>
      try rw [hg]
      exact hc
    | some leader =>
      try rw [hg]
      dsimp only
      split_ifs with hup
      · exact drainLoop_conservation i _ _ 0 h s hc
      · exact hc

/-- One arrival preserves the conservation invariant. -/
theorem processArrival_conservation (li : Option ℕ) (h : Heap) (s : SimulationState)
    (hc : conservation s) : conservation (processArrival li h s).2 := by
  unfold conservation liveCount inflightTotal at hc ⊢
  obtain ⟨hc1, hc2⟩ := hc
  unfold processArrival
  cases li with
  | none =>
    dsimp only
    refine ⟨?_, ?_⟩ <;> dsimp only <;> omega
  | some i =>
    dsimp only
    cases hget : s.loadBalancers.get? i with
    | none =>
      dsimp only
      refine ⟨?_, ?_⟩ <;> dsimp only <;> omega
    | some leader =>
      have hget2 : s.loadBalancers[i]? = some leader := by
        rw [← List.get?_eq_getElem?]; exact hget
      dsimp only
      have edrp : List.map (fun lb => lb.queue.length)
          (modifyAt s.loadBalancers i
            (fun lb => { lb with droppedRequests := lb.droppedRequests + 1 })) =
          List.map (fun lb => lb.queue.length) s.loadBalancers :=
        map_modifyAt_invariant _ _ _ _ (fun x => rfl)
      have epush := sum_map_modifyAt s.loadBalancers (fun lb => lb.queue.length)
        (fun lb => { lb with queue := lb.queue ++ [s.nextRequestId] }) i hget2
      dsimp only at epush
      simp only [List.length_append, List.length_cons, List.length_nil] at epush
      split_ifs with h1 h2 <;>
        (refine ⟨?_, ?_⟩ <;> dsimp only <;> (try rw [edrp]) <;> omega)

/-- The arrival loop preserves the conservation invariant. -/
theorem processArrivals_conservation (li : Option ℕ) (n : ℕ) :
    ∀ (h : Heap) (s : SimulationState), conservation s →
      conservation (processArrivals li n h s).2 := by
  induction n with
  | zero => intro h s hc; exact hc
  | succ n ih =>
    intro h s hc
    simp only [processArrivals]
    exact ih _ _ (processArrival_conservation li h s hc)

/-- `ensureLeader` only sets the leader id. -/
theorem ensureLeader_totals (s : SimulationState) :
    (ensureLeader s).2.totals = s.totals := by
  unfold ensureLeader
  repeat' (first | split | dsimp only)

/-- `ensureLeader` does not allocate request ids. -/
theorem ensureLeader_nextRequestId (s : SimulationState) :
    (ensureLeader s).2.nextRequestId = s.nextRequestId := by
  unfold ensureLeader
  repeat' (first | split | dsimp only)

/-- Snapshot refreshes preserve the per-server live counts. -/
theorem updateAllSnapshots_live (t iv d : ℚ) (lbs : List LoadBalancerState) :
    ∀ servers : List ServerState,
      List.map (fun server => server.queue.length + server.inflight.length)
        ((updateAllSnapshots t iv d lbs servers).2) =
      List.map (fun server => server.queue.length + server.inflight.length) servers := by
  induction lbs with
  | nil => intro servers; rfl
  | cons lb rest ih =>
    intro servers
    simp only [updateAllSnapshots]
    rw [ih]
    unfold updateHealthSnapshot
    split
    · rfl
    · dsimp only
      apply map_map_invariant
      intro x
      split <;> rfl

/-- Snapshot refreshes preserve the per-server in-flight counts. -/
theorem updateAllSnapshots_infl (t iv d : ℚ) (lbs : List LoadBalancerState) :
    ∀ servers : List ServerState,
      List.map (fun server => server.inflight.length)
        ((updateAllSnapshots t iv d lbs servers).2) =
      List.map (fun server => server.inflight.length) servers := by
  induction lbs with
  | nil => intro servers; rfl
  | cons lb rest ih =>
    intro servers
    simp only [updateAllSnapshots]
    rw [ih]
    unfold updateHealthSnapshot
    split
    · rfl
    · dsimp only
      apply map_map_invariant
      intro x
      split <;> rfl

/-- Snapshot refreshes preserve the LB queue lengths. -/
theorem updateAllSnapshots_qlen (t iv d : ℚ) (lbs : List LoadBalancerState) :
    ∀ servers : List ServerState,
      List.map (fun lb => lb.queue.length) ((updateAllSnapshots t iv d lbs servers).1) =
      List.map (fun lb => lb.queue.length) lbs := by
  induction lbs with
  | nil => intro servers; rfl
  | cons lb rest ih =>
    intro servers
    simp only [updateAllSnapshots, List.map_cons]
    rw [ih]
    congr 1
    unfold updateHealthSnapshot
    split <;> rfl

/-- The pre-drain phases preserve the conservation invariant. -/
theorem preDrain_conservation (h : Heap) (prev : SimulationState) (dtMs : ℚ)
    (hc : conservation prev) : conservation (preDrain h prev dtMs).2.2 := by
  unfold preDrain
  dsimp only
  apply processArrivals_conservation
  unfold conservation liveCount inflightTotal at hc ⊢
  obtain ⟨hc1, hc2⟩ := hc
  have eReset : List.map (fun lb => lb.queue.length)
      (List.map (fun lb => ({ lb with activeConnections := 0 } : LoadBalancerState))
        prev.loadBalancers) =
      List.map (fun lb => lb.queue.length) prev.loadBalancers :=
    map_map_invariant _ _ _ (fun x => rfl)
  refine ⟨?_, ?_⟩ <;>
    (dsimp only
     try rw [ensureLeader_totals]
     try rw [ensureLeader_nextRequestId]
     try rw [updateAllSnapshots_qlen]
     try rw [updateAllSnapshots_live]
     try rw [updateAllSnapshots_infl]
     try rw [ensureLeader_loadBalancers]
     try rw [ensureLeader_servers]
     dsimp only
     try rw [eReset]
     omega)

/-- A promotion loop that cannot promote stops immediately. -/
theorem promoteLoop_neg (alpha timeMs : ℚ) (fuel : ℕ) (server : ServerState)
    (acc : SrvAcc)
    (hneg : ¬ (server.queue.length ≠ 0 ∧
      server.inflight.length < server.maxConcurrentRequests)) :
    promoteLoop alpha timeMs fuel server acc = (server, acc) := by
  cases fuel with
  | zero => rfl
  | succ n =>
    simp only [promoteLoop]
    rw [if_neg hneg]

/-- Unrolling a promotion step. -/
theorem promoteLoop_unroll (alpha timeMs : ℚ) (n : ℕ) (server : ServerState)
    (acc : SrvAcc) :
    promoteLoop alpha timeMs (n + 1) server acc =
      promoteLoop alpha timeMs n (promoteLoop alpha timeMs 1 server acc).1
        (promoteLoop alpha timeMs 1 server acc).2 := by
  by_cases hcond : server.queue.length ≠ 0 ∧
      server.inflight.length < server.maxConcurrentRequests
  · simp only [promoteLoop]
    rw [if_pos hcond, if_pos hcond]
    cases hqm : server.queue with
    | nil => simp [hqm] at hcond
    | cons rid restQ =>
      try rw [hqm]
      dsimp only
  · rw [promoteLoop_neg alpha timeMs (n + 1) server acc hcond,
        promoteLoop_neg alpha timeMs 1 server acc hcond]
    exact (promoteLoop_neg alpha timeMs n server acc hcond).symm

/-- Accounting for a single promotion step. -/
theorem promoteLoop_one_acct (alpha timeMs : ℚ) (server : ServerState) (acc : SrvAcc) :
    (promoteLoop alpha timeMs 1 server acc).2.totals.started + server.inflight.length =
      acc.totals.started + (promoteLoop alpha timeMs 1 server acc).1.inflight.length ∧
    (promoteLoop alpha timeMs 1 server acc).1.queue.length +
      (promoteLoop alpha timeMs 1 server acc).1.inflight.length =
      server.queue.length + server.inflight.length ∧
    (promoteLoop alpha timeMs 1 server acc).2.totals.completed = acc.totals.completed ∧
    (promoteLoop alpha timeMs 1 server acc).2.totals.failed = acc.totals.failed ∧
    (promoteLoop alpha timeMs 1 server acc).2.totals.droppedLb = acc.totals.droppedLb := by
  simp only [promoteLoop]
  split_ifs with hcond
  · cases hqm : server.queue with
    | nil => simp [hqm] at hcond
    | cons rid restQ =>
      try rw [hqm]
      dsimp only
      simp only [List.length_append, List.length_cons, List.length_nil]
      exact ⟨by omega, by omega, trivial, trivial, trivial⟩
  · dsimp only
    omega

/-- Accounting for the whole promotion loop. -/
theorem promoteLoop_acct (alpha timeMs : ℚ) (fuel : ℕ) :
    ∀ (server : ServerState) (acc : SrvAcc),
      (promoteLoop alpha timeMs fuel server acc).2.totals.started + server.inflight.length =
        acc.totals.started + (promoteLoop alpha timeMs fuel server acc).1.inflight.length ∧
      (promoteLoop alpha timeMs fuel server acc).1.queue.length +
        (promoteLoop alpha timeMs fuel server acc).1.inflight.length =
        server.queue.length + server.inflight.length ∧
      (promoteLoop alpha timeMs fuel server acc).2.totals.completed = acc.totals.completed ∧
      (promoteLoop alpha timeMs fuel server acc).2.totals.failed = acc.totals.failed ∧
      (promoteLoop alpha timeMs fuel server acc).2.totals.droppedLb = acc.totals.droppedLb := by
  induction fuel with
  | zero => intro server acc; exact ⟨rfl, rfl, rfl, rfl, rfl⟩
  | succ n ih =>
    intro server acc
    rw [promoteLoop_unroll]
    have h1 := promoteLoop_one_acct alpha timeMs server acc
    have h2 := ih (promoteLoop alpha timeMs 1 server acc).1
      (promoteLoop alpha timeMs 1 server acc).2
    exact ⟨by omega, by omega, by omega, by omega, by omega⟩

/-- Unrolling a progress step. -/
theorem progressLoop_unroll (alpha timeMs dtMs : ℚ) (rid : ℕ) (rest : List ℕ)
    (server : ServerState) (still : List ℕ) (acc : SrvAcc) :
    progressLoop alpha timeMs dtMs (rid :: rest) server still acc =
      progressLoop alpha timeMs dtMs rest
        (progressLoop alpha timeMs dtMs [rid] server still acc).1
        (progressLoop alpha timeMs dtMs [rid] server still acc).2.1
        (progressLoop alpha timeMs dtMs [rid] server still acc).2.2 := by
  simp only [progressLoop]
  split_ifs with hdone
  · rfl
  · rfl

/-- Accounting for a single progress step. -/
theorem progressLoop_one_acct (alpha timeMs dtMs : ℚ) (rid : ℕ)
    (server : ServerState) (still : List ℕ) (acc : SrvAcc) :
    (progressLoop alpha timeMs dtMs [rid] server still acc).2.2.totals.completed +
      (progressLoop alpha timeMs dtMs [rid] server still acc).2.1.length =
      acc.totals.completed + still.length + 1 ∧
    (progressLoop alpha timeMs dtMs [rid] server still acc).2.2.totals.started =
      acc.totals.started ∧
    (progressLoop alpha timeMs dtMs [rid] server still acc).2.2.totals.failed =
      acc.totals.failed ∧
    (progressLoop alpha timeMs dtMs [rid] server still acc).2.2.totals.droppedLb =
      acc.totals.droppedLb := by
  simp only [progressLoop]
  split_ifs with hdone
  · dsimp only
    omega
  · dsimp only
    simp only [List.length_append, List.length_cons, List.length_nil]
    refine ⟨?_, ?_, ?_, ?_⟩ <;> trivial

/-- Accounting for the whole progress loop. -/
theorem progressLoop_acct (alpha timeMs dtMs : ℚ) (lst : List ℕ) :
    ∀ (server : ServerState) (still : List ℕ) (acc : SrvAcc),
      (progressLoop alpha timeMs dtMs lst server still acc).2.2.totals.completed +
        (progressLoop alpha timeMs dtMs lst server still acc).2.1.length =
        acc.totals.completed + still.length + lst.length ∧
      (progressLoop alpha timeMs dtMs lst server still acc).2.2.totals.started =
        acc.totals.started ∧
      (progressLoop alpha timeMs dtMs lst server still acc).2.2.totals.failed =
        acc.totals.failed ∧
      (progressLoop alpha timeMs dtMs lst server still acc).2.2.totals.droppedLb =
        acc.totals.droppedLb := by
  induction lst with
  | nil => intro server still acc; exact ⟨by dsimp [progressLoop], rfl, rfl, rfl⟩
  | cons rid rest ih =>
    intro server still acc
    rw [progressLoop_unroll]
    have h1 := progressLoop_one_acct alpha timeMs dtMs rid server still acc
    have h2 := ih (progressLoop alpha timeMs dtMs [rid] server still acc).1
      (progressLoop alpha timeMs dtMs [rid] server still acc).2.1
      (progressLoop alpha timeMs dtMs [rid] server still acc).2.2
    exact ⟨by simp only [List.length_cons]; omega, by omega, by omega, by omega⟩

/-- Equal queue observations give equal queue-length maps. -/
theorem map_qlen_of_map_lbObs {l1 l2 : List LoadBalancerState}
    (h : l1.map lbObs = l2.map lbObs) :
    l1.map (fun lb => lb.queue.length) = l2.map (fun lb => lb.queue.length) := by
  have h2 := congrArg (List.map (fun p : ℕ × ℕ => p.1)) h
  simpa [List.map_map, Function.comp, lbObs] using h2

/-- Accounting for the per-server pass: completions balance against the
requests removed from server queues and in-flight lists, `started` moves in
step with promotions, the other failure totals are untouched, and LB queue
lengths are unchanged. -/
theorem serversPhase_acct (alpha timeMs dtMs : ℚ) (servers : List ServerState) :
    ∀ (acc : SrvAcc),
      (serversPhase alpha timeMs dtMs servers acc).2.totals.completed +
        (((serversPhase alpha timeMs dtMs servers acc).1).map
          (fun server => server.queue.length + server.inflight.length)).sum =
        acc.totals.completed +
        (servers.map (fun server => server.queue.length + server.inflight.length)).sum ∧
      (serversPhase alpha timeMs dtMs servers acc).2.totals.started +
        acc.totals.completed +
        (servers.map (fun server => server.inflight.length)).sum =
        acc.totals.started +
        (serversPhase alpha timeMs dtMs servers acc).2.totals.completed +
        (((serversPhase alpha timeMs dtMs servers acc).1).map
          (fun server => server.inflight.length)).sum ∧
      (serversPhase alpha timeMs dtMs servers acc).2.totals.failed = acc.totals.failed ∧
      (serversPhase alpha timeMs dtMs servers acc).2.totals.droppedLb =
        acc.totals.droppedLb ∧
      ((serversPhase alpha timeMs dtMs servers acc).2.loadBalancers).map
        (fun lb => lb.queue.length) =
        acc.loadBalancers.map (fun lb => lb.queue.length) := by
  induction servers with
  | nil => intro acc; exact ⟨rfl, rfl, rfl, rfl, rfl⟩
  | cons server rest ih =>
    intro acc
    simp only [serversPhase]
    set p := promoteLoop alpha timeMs server.queue.length server acc with hpdef
    set q := progressLoop alpha timeMs dtMs p.1.inflight p.1 [] p.2 with hqdef
    set r := serversPhase alpha timeMs dtMs rest q.2.2 with hrdef
    have hp := promoteLoop_acct alpha timeMs server.queue.length server acc
    rw [← hpdef] at hp
    have hq := progressLoop_acct alpha timeMs dtMs p.1.inflight p.1 [] p.2
    rw [← hqdef] at hq
    have hobs := progressLoop_server_obs alpha timeMs dtMs p.1.inflight p.1 [] p.2
    rw [← hqdef] at hobs
    have hql : q.1.queue.length = p.1.queue.length := by
      have h3 := congrArg (fun t : ℕ × ℕ × ℕ × ℕ => t.2.2.1) hobs
      simpa [srvObs] using h3
    have hlbp := promoteLoop_lbs alpha timeMs server.queue.length server acc
    rw [← hpdef] at hlbp
    have hlbq := progressLoop_lbObs alpha timeMs dtMs p.1.inflight p.1 [] p.2
    rw [← hqdef] at hlbq
    have hih := ih q.2.2
    rw [← hrdef] at hih
    obtain ⟨hp1, hp2, hp3, hp4, hp5⟩ := hp
    obtain ⟨hq1, hq2, hq3, hq4⟩ := hq
    simp only [List.length_nil] at hq1
    obtain ⟨hi1, hi2, hi3, hi4, hi5⟩ := hih
    refine ⟨?_, ?_, ?_, ?_, ?_⟩
    · simp only [List.map_cons, List.sum_cons]
      omega
    · simp only [List.map_cons, List.sum_cons]
      omega
    · omega
    · omega
    · rw [hi5, map_qlen_of_map_lbObs hlbq, hlbp]

/-- The metrics phase only appends a metrics point. -/
theorem metricsPhase_conservation (s : SimulationState) (hc : conservation s) :
    conservation (metricsPhase s) := by
  unfold conservation liveCount inflightTotal at hc ⊢
  unfold metricsPhase
  dsimp only
  exact hc

/-- One full step preserves the conservation invariant. -/
theorem stepSimulation_conservation (h : Heap) (prev : SimulationState) (dtMs : ℚ)
    (hc : conservation prev) : conservation (stepSimulation h prev dtMs).2 := by
  have h1 := preDrain_conservation h prev dtMs hc
  have h2 := drainPhase_conservation (preDrain h prev dtMs).1 dtMs
    (preDrain h prev dtMs).2.1 (preDrain h prev dtMs).2.2 h1
  unfold stepSimulation
  dsimp only
  apply metricsPhase_conservation
  set pre := preDrain h prev dtMs with hpre
  set dr := drainPhase pre.1 dtMs pre.2.1 pre.2.2 with hdr
  have hsp := serversPhase_acct dr.2.2.ewmaAlpha dr.2.2.timeMs dtMs dr.2.2.servers
    { h := dr.2.1, loadBalancers := dr.2.2.loadBalancers, totals := dr.2.2.totals,
      recentLatencies := dr.2.2.recentLatencies, recentLbWaits := dr.2.2.recentLbWaits,
      recentServerWaits := dr.2.2.recentServerWaits, log := dr.2.2.log }
  dsimp only at hsp
  unfold conservation liveCount inflightTotal at h2 ⊢
  dsimp only
  obtain ⟨h2a, h2b⟩ := h2
  obtain ⟨hsp1, hsp2, hsp3, hsp4, hsp5⟩ := hsp
  have hsum := congrArg List.sum hsp5
  exact ⟨by omega, by omega⟩

/-- Conservation is preserved along any run. -/
theorem runSteps_conservation (dts : List ℚ) :
    ∀ (hs : Heap × SimulationState), conservation hs.2 →
      conservation (runSteps hs dts).2 := by
  induction dts with
  | nil => intro hs hc; exact hc
  | cons dt rest ih =>
    intro hs hc
    exact ih (stepSimulation hs.1 hs.2 dt)
      (stepSimulation_conservation hs.1 hs.2 dt hc)

/-- The initial state satisfies the conservation invariant. -/
theorem conservation_initial : conservation createInitialState := ⟨rfl, rfl⟩

/-- C1 (amended): the spec's conservation equation fails because
`totals.started` counts entries into processing rather than arrivals, but a
true conservation law holds for every prefix of steps from the initial
state: `nextRequestId` (one more than the number of arrivals ever assigned
an id) equals `1 + completed + failed + droppedLb` plus the number of
currently live requests in LB admission queues, server queues and server
in-flight lists; and `started = completed + currently-in-flight`. Together
these say every admitted request is live or in exactly one terminal bucket:
no request silently vanishes. -/
theorem c1_conservation_amended (dts : List ℚ) :
    conservation (runSteps (initialHeap, createInitialState) dts).2 :=
  runSteps_conservation dts (initialHeap, createInitialState) conservation_initial

/-- All request ids held in containers of the state: LB admission queues,
server queues and server in-flight lists. -/
def containerIds (s : SimulationState) : List ℕ :=
  (s.loadBalancers.map (fun lb => lb.queue)).flatten ++
  (s.servers.map (fun server => server.queue ++ server.inflight)).flatten

/-- Every container id of the state satisfies `P`, split by container. -/
def idsGood (P : ℕ → Prop) (s : SimulationState) : Prop :=
  (∀ lb ∈ s.loadBalancers, ∀ rid ∈ lb.queue, P rid) ∧
  (∀ server ∈ s.servers, ∀ rid ∈ server.queue, P rid) ∧
  (∀ server ∈ s.servers, ∀ rid ∈ server.inflight, P rid)

/-- An id in some LB queue is a container id. -/
theorem lbQueue_mem_containerIds {s : SimulationState} {lb : LoadBalancerState}
    {rid : ℕ} (hlb : lb ∈ s.loadBalancers) (hr : rid ∈ lb.queue) :
    rid ∈ containerIds s := by
  unfold containerIds
  rw [List.mem_append]
  exact Or.inl (List.mem_flatten.mpr ⟨lb.queue, List.mem_map_of_mem _ hlb, hr⟩)

/-- An id in some server queue is a container id. -/
theorem srvQueue_mem_containerIds {s : SimulationState} {server : ServerState}
    {rid : ℕ} (hs : server ∈ s.servers) (hr : rid ∈ server.queue) :
    rid ∈ containerIds s := by
  unfold containerIds
  rw [List.mem_append]
  refine Or.inr (List.mem_flatten.mpr ⟨server.queue ++ server.inflight,
    List.mem_map_of_mem _ hs, ?_⟩)
  exact List.mem_append.mpr (Or.inl hr)

/-- An id in some server in-flight list is a container id. -/
theorem srvInflight_mem_containerIds {s : SimulationState} {server : ServerState}
    {rid : ℕ} (hs : server ∈ s.servers) (hr : rid ∈ server.inflight) :
    rid ∈ containerIds s := by
  unfold containerIds
  rw [List.mem_append]
  refine Or.inr (List.mem_flatten.mpr ⟨server.queue ++ server.inflight,
    List.mem_map_of_mem _ hs, ?_⟩)
  exact List.mem_append.mpr (Or.inr hr)

/-- The id-content observation of a server. -/
def srvIds (server : ServerState) : List ℕ × List ℕ := (server.queue, server.inflight)

/-- A snapshot refresh does not move any request id. -/
theorem updateHealthSnapshot_ids (lb : LoadBalancerState)
    (servers : List ServerState) (t iv d : ℚ) :
    ((updateHealthSnapshot lb servers t iv d).2).map srvIds = servers.map srvIds ∧
    (updateHealthSnapshot lb servers t iv d).1.queue = lb.queue := by
  unfold updateHealthSnapshot
  split
  · exact ⟨rfl, rfl⟩
  · dsimp only
    refine ⟨?_, rfl⟩
    apply map_map_invariant
    intro x
    split
    · rfl
    · rfl

/-- The snapshot-refresh pass does not move any request id (servers). -/
theorem updateAllSnapshots_srvIds (t iv d : ℚ) (lbs : List LoadBalancerState) :
    ∀ servers : List ServerState,
      ((updateAllSnapshots t iv d lbs servers).2).map srvIds = servers.map srvIds := by
  induction lbs with
  | nil => intro servers; rfl
  | cons lb rest ih =>
    intro servers
    simp only [updateAllSnapshots]
    rw [ih, (updateHealthSnapshot_ids lb servers t iv d).1]

/-- The snapshot-refresh pass does not move any request id (LBs). -/
theorem updateAllSnapshots_lbIds (t iv d : ℚ) (lbs : List LoadBalancerState) :
    ∀ servers : List ServerState,
      ((updateAllSnapshots t iv d lbs servers).1).map (fun lb => lb.queue) =
        lbs.map (fun lb => lb.queue) := by
  induction lbs with
  | nil => intro servers; rfl
  | cons lb rest ih =>
    intro servers
    simp only [updateAllSnapshots, List.map_cons]
    rw [ih, (updateHealthSnapshot_ids lb servers t iv d).2]

/-- A store write does not change other entries. -/
theorem hset_frame (h : Heap) (i : ℕ) (r : Request) (j : ℕ) (hne : j ≠ i) :
    hset h i r j = h j := by
  unfold hset
  rw [if_neg hne]

/-- One arrival writes the store only at the fresh id and keeps all container
ids inside `P` when fresh ids are in `P`. -/
theorem processArrival_frame (P : ℕ → Prop) (li : Option ℕ) (h : Heap)
    (s : SimulationState) (hg : idsGood P s)
    (hnext : ∀ rid, s.nextRequestId ≤ rid → P rid) :
    (∀ rid, ¬ P rid → (processArrival li h s).1 rid = h rid) ∧
    idsGood P (processArrival li h s).2 ∧
    (∀ rid, (processArrival li h s).2.nextRequestId ≤ rid → P rid) := by
  obtain ⟨hg1, hg2, hg3⟩ := hg
  have hPnew : P s.nextRequestId := hnext _ le_rfl
  have hframe : ∀ (req : Request) (rid : ℕ), ¬ P rid →
      hset h s.nextRequestId req rid = h rid := by
    intro req rid hnp
    exact hset_frame _ _ _ _ (fun he => hnp (he ▸ hPnew))
  have hnext1 : ∀ rid, s.nextRequestId + 1 ≤ rid → P rid :=
    fun rid hr => hnext rid (by omega)
  unfold processArrival
  dsimp only
  split
  · exact ⟨fun rid hnp => hframe _ rid hnp, ⟨hg1, hg2, hg3⟩, hnext1⟩
  · split
    · exact ⟨fun rid hnp => hframe _ rid hnp, ⟨hg1, hg2, hg3⟩, hnext1⟩
    · split_ifs with hup hfull
      · refine ⟨fun rid hnp => hframe _ rid hnp, ⟨?_, hg2, hg3⟩, hnext1⟩
        intro lb hlb rid hrid
        rcases mem_modifyAt hlb with hmem | ⟨y, hy, heq⟩
        · exact hg1 lb hmem rid hrid
        · subst heq
          exact hg1 y (List.getElem?_mem hy) rid hrid
      · refine ⟨fun rid hnp => hframe _ rid hnp, ⟨?_, hg2, hg3⟩, hnext1⟩
        intro lb hlb rid hrid
        rcases mem_modifyAt hlb with hmem | ⟨y, hy, heq⟩
        · exact hg1 lb hmem rid hrid
        · subst heq
          dsimp only at hrid
          rcases List.mem_append.mp hrid with hin | hin
          · exact hg1 y (List.getElem?_mem hy) rid hin
          · have he : rid = s.nextRequestId := List.mem_singleton.mp hin
            exact he ▸ hPnew
      · exact ⟨fun rid hnp => hframe _ rid hnp, ⟨hg1, hg2, hg3⟩, hnext1⟩

/-- The arrival loop writes the store only at fresh ids. -/
theorem processArrivals_frame (P : ℕ → Prop) (li : Option ℕ) (n : ℕ) :
    ∀ (h : Heap) (s : SimulationState), idsGood P s →
      (∀ rid, s.nextRequestId ≤ rid → P rid) →
      (∀ rid, ¬ P rid → (processArrivals li n h s).1 rid = h rid) ∧
      idsGood P (processArrivals li n h s).2 ∧
      (∀ rid, (processArrivals li n h s).2.nextRequestId ≤ rid → P rid) := by
  induction n with
  | zero => intro h s hg hnext; exact ⟨fun rid _ => rfl, hg, hnext⟩
  | succ m ih =>
    intro h s hg hnext
    obtain ⟨hf1, hg1, hn1⟩ := processArrival_frame P li h s hg hnext
    obtain ⟨hf2, hg2, hn2⟩ := ih (processArrival li h s).1 (processArrival li h s).2 hg1 hn1
    refine ⟨?_, hg2, hn2⟩
    intro rid hnp
    rw [processArrivals]
    rw [hf2 rid hnp, hf1 rid hnp]

/-- The pre-drain phases write the store only at fresh arrival ids. -/
theorem preDrain_frame (P : ℕ → Prop) (h : Heap) (prev : SimulationState)
    (dtMs : ℚ) (hg : idsGood P prev)
    (hnext : ∀ rid, prev.nextRequestId ≤ rid → P rid) :
    (∀ rid, ¬ P rid → (preDrain h prev dtMs).2.1 rid = h rid) ∧
    idsGood P (preDrain h prev dtMs).2.2 ∧
    (∀ rid, (preDrain h prev dtMs).2.2.nextRequestId ≤ rid → P rid) := by
  obtain ⟨hg1, hg2, hg3⟩ := hg
  unfold preDrain
  dsimp only
  refine processArrivals_frame P _ _ _ _ ⟨?_, ?_, ?_⟩ ?_
  · intro lb hlb rid hrid
    refine @forall_mem_of_map_eq LoadBalancerState (List ℕ) (fun lb => lb.queue)
      (fun q => ∀ r ∈ q, P r) _ _ (updateAllSnapshots_lbIds _ _ _ _ _) ?_ lb hlb rid hrid
    rw [ensureLeader_loadBalancers]
    dsimp only
    intro x hx
    rcases List.mem_map.mp hx with ⟨y, hy, heq⟩
    subst heq
    exact hg1 y hy
  · intro server hs rid hrid
    have hq := @forall_mem_of_map_eq ServerState (List ℕ × List ℕ) srvIds
      (fun p => ∀ r ∈ p.1, P r) _ _ (updateAllSnapshots_srvIds _ _ _ _ _) ?_ server hs
    · exact hq rid hrid
    · rw [ensureLeader_servers]
      dsimp only
      intro x hx
      exact hg2 x hx
  · intro server hs rid hrid
    have hq := @forall_mem_of_map_eq ServerState (List ℕ × List ℕ) srvIds
      (fun p => ∀ r ∈ p.2, P r) _ _ (updateAllSnapshots_srvIds _ _ _ _ _) ?_ server hs
    · exact hq rid hrid
    · rw [ensureLeader_servers]
      dsimp only
      intro x hx
      exact hg3 x hx
  · intro rid hrid
    rw [ensureLeader_nextRequestId] at hrid
    exact hnext rid hrid

/-- One drain iteration writes the store only at the shifted queue-head id
and moves that id between containers. -/
theorem drainOne_frame (P : ℕ → Prop) (i routed : ℕ) (h : Heap)
    (s : SimulationState) (hg : idsGood P s) :
    (∀ rid, ¬ P rid → (drainOne i routed h s).2.1 rid = h rid) ∧
    idsGood P (drainOne i routed h s).2.2 ∧
    (drainOne i routed h s).2.2.nextRequestId = s.nextRequestId := by
  obtain ⟨hg1, hg2, hg3⟩ := hg
  unfold drainOne
  cases hget : s.loadBalancers.get? i with
  | none => exact ⟨fun _ _ => rfl, ⟨hg1, hg2, hg3⟩, rfl⟩
  | some leader =>
    dsimp only
    have hget2 : s.loadBalancers[i]? = some leader := by
      rw [← List.get?_eq_getElem?]; exact hget
    have hleadmem : leader ∈ s.loadBalancers := List.getElem?_mem hget2
    cases hq : leader.queue with
    | nil =>
      try rw [hq]
      exact ⟨fun _ _ => rfl, ⟨hg1, hg2, hg3⟩, rfl⟩
    | cons rid restQ =>
      try rw [hq]
      dsimp only
      have hPrid : P rid := hg1 leader hleadmem rid (by rw [hq]; exact List.mem_cons_self rid restQ)
      have hh : ∀ (r1 r2 : Request) (rid' : ℕ), ¬ P rid' →
          hset (hset h rid r1) rid r2 rid' = h rid' := by
        intro r1 r2 rid' hnp
        have hne : rid' ≠ rid := fun he => hnp (he ▸ hPrid)
        rw [hset_frame _ _ _ _ hne, hset_frame _ _ _ _ hne]
      have hLq : ∀ lb ∈ modifyAt s.loadBalancers i
          (fun lb => { lb with queue := restQ }), ∀ r ∈ lb.queue, P r := by
        intro lb hlb r hr
        rcases mem_modifyAt hlb with hmem | ⟨y, hy, heq⟩
        · exact hg1 lb hmem r hr
        · subst heq
          dsimp only at hr
          refine hg1 leader hleadmem r ?_
          rw [hq]
          exact List.mem_cons_of_mem _ hr
      have hLact : ∀ (L : List LoadBalancerState) (f : LoadBalancerState → LoadBalancerState),
          (∀ lb, (f lb).queue = lb.queue) → (∀ lb ∈ L, ∀ r ∈ lb.queue, P r) →
          ∀ lb ∈ modifyAt L i f, ∀ r ∈ lb.queue, P r := by
        intro L f hf hL lb hlb r hr
        rcases mem_modifyAt hlb with hmem | ⟨y, hy, heq⟩
        · exact hL lb hmem r hr
        · subst heq
          rw [hf] at hr
          exact hL y (List.getElem?_mem hy) r hr
      have hSq : ∀ (f : ServerState → ServerState) (p : ServerState → Bool),
          (∀ srv, ∀ r ∈ (f srv).queue, r ∈ srv.queue ∨ r = rid) →
          ∀ sv ∈ updateFirst s.servers p f, ∀ r ∈ sv.queue, P r := by
        intro f p hf sv hsv r hr
        rcases mem_updateFirst hsv with hmem | ⟨y, hy, heq⟩
        · exact hg2 sv hmem r hr
        · subst heq
          rcases hf y r hr with hin | he
          · exact hg2 y (List.mem_of_find?_eq_some hy) r hin
          · exact he ▸ hPrid
      have hSi : ∀ (f : ServerState → ServerState) (p : ServerState → Bool),
          (∀ srv, ∀ r ∈ (f srv).inflight, r ∈ srv.inflight ∨ r = rid) →
          ∀ sv ∈ updateFirst s.servers p f, ∀ r ∈ sv.inflight, P r := by
        intro f p hf sv hsv r hr
        rcases mem_updateFirst hsv with hmem | ⟨y, hy, heq⟩
        · exact hg3 sv hmem r hr
        · subst heq
          rcases hf y r hr with hin | he
          · exact hg3 y (List.mem_of_find?_eq_some hy) r hin
          · exact he ▸ hPrid
      generalize hsel : ((getAlgorithm leader.routingAlgorithm).select
        { servers := s.servers,
          availableIds := availableServerIds s.servers leader.healthSnapshot s.timeMs,
          rrIndex := s.rrIndex, requestId := rid }) = sel
      obtain ⟨sidO, rsn, rrO⟩ := sel
      cases sidO with
      | none =>
        cases rrO <;>
          exact ⟨fun r hr => hh _ _ r hr, ⟨hLq, hg2, hg3⟩, rfl⟩
      | some sid =>
        dsimp only
        cases rrO
        all_goals
          dsimp only
          generalize hgen : List.find? (fun server => server.id == sid) s.servers = fnd
          cases fnd with
          | none => exact ⟨fun r hr => hh _ _ r hr, ⟨hLq, hg2, hg3⟩, rfl⟩
          | some server =>
            dsimp only
            split_ifs with h1 h2 h3
            · refine ⟨fun r hr => hh _ _ r hr,
                ⟨hLact _ _ (fun lb => rfl) hLq, ?_, ?_⟩, rfl⟩
              · refine hSq _ _ ?_
                intro srv r hr
                exact Or.inl hr
              · refine hSi _ _ ?_
                intro srv r hr
                dsimp only at hr
                rcases List.mem_append.mp hr with hin | hin
                · exact Or.inl hin
                · exact Or.inr (List.mem_singleton.mp hin)
            · refine ⟨fun r hr => hh _ _ r hr,
                ⟨hLact _ _ (fun lb => rfl) hLq, ?_, ?_⟩, rfl⟩
              · refine hSq _ _ ?_
                intro srv r hr
                dsimp only at hr
                rcases List.mem_append.mp hr with hin | hin
                · exact Or.inl hin
                · exact Or.inr (List.mem_singleton.mp hin)
              · refine hSi _ _ ?_
                intro srv r hr
                exact Or.inl hr
            · refine ⟨fun r hr => hh _ _ r hr,
                ⟨hLact _ _ (fun lb => rfl) (hLact _ _ (fun lb => rfl) hLq), ?_, ?_⟩, rfl⟩
              · refine hSq _ _ ?_
                intro srv r hr
                exact Or.inl hr
              · refine hSi _ _ ?_
                intro srv r hr
                exact Or.inl hr
            · refine ⟨fun r hr => hh _ _ r hr,
                ⟨hLq, ?_, ?_⟩, rfl⟩
              · refine hSq _ _ ?_
                intro srv r hr
                exact Or.inl hr
              · refine hSi _ _ ?_
                intro srv r hr
                exact Or.inl hr

/-- The drain loop writes the store only at container ids. -/
theorem drainLoop_frame (P : ℕ → Prop) (i maxPerTick : ℕ) (fuel : ℕ) :
    ∀ (routed : ℕ) (h : Heap) (s : SimulationState), idsGood P s →
      (∀ rid, ¬ P rid → (drainLoop i maxPerTick fuel routed h s).2.1 rid = h rid) ∧
      idsGood P (drainLoop i maxPerTick fuel routed h s).2.2 ∧
      (drainLoop i maxPerTick fuel routed h s).2.2.nextRequestId = s.nextRequestId := by
  induction fuel with
  | zero => intro routed h s hg; exact ⟨fun _ _ => rfl, hg, rfl⟩
  | succ n ih =>
    intro routed h s hg
    cases hgl : s.loadBalancers[i]? with
    | none =>
      simp only [drainLoop, List.get?_eq_getElem?, hgl]
      exact ⟨fun _ _ => trivial, hg, trivial⟩
    | some leader =>
      simp only [drainLoop, List.get?_eq_getElem?, hgl]
      split_ifs with hcond
      · obtain ⟨f1, g1, n1⟩ := drainOne_frame P i routed h s hg
        obtain ⟨f2, g2, n2⟩ := ih (drainOne i routed h s).1 (drainOne i routed h s).2.1
          (drainOne i routed h s).2.2 g1
        refine ⟨?_, g2, by rw [n2, n1]⟩
        intro r hr
        rw [f2 r hr, f1 r hr]
      · exact ⟨fun _ _ => rfl, hg, rfl⟩

/-- The drain phase writes the store only at container ids. -/
theorem drainPhase_frame (P : ℕ → Prop) (li : Option ℕ) (dtMs : ℚ) (h : Heap)
    (s : SimulationState) (hg : idsGood P s) :
    (∀ rid, ¬ P rid → (drainPhase li dtMs h s).2.1 rid = h rid) ∧
    idsGood P (drainPhase li dtMs h s).2.2 ∧
    (drainPhase li dtMs h s).2.2.nextRequestId = s.nextRequestId := by
  cases li with
  | none => exact ⟨fun _ _ => rfl, hg, rfl⟩
  | some i =>
    unfold drainPhase
    dsimp only
    cases hgl : s.loadBalancers.get? i with
    | none => exact ⟨fun _ _ => rfl, hg, rfl⟩
    | some leader =>
      dsimp only
      split_ifs with hup
      · exact drainLoop_frame P i _ leader.queue.length 0 h s hg
      · exact ⟨fun _ _ => rfl, hg, rfl⟩

/-- Single promotion step: store writes only at the promoted queue-head. -/
theorem promoteLoop_one_frame (P : ℕ → Prop) (alpha timeMs : ℚ)
    (server : ServerState) (acc : SrvAcc)
    (hq : ∀ r ∈ server.queue, P r) (hi : ∀ r ∈ server.inflight, P r) :
    (∀ r, ¬ P r → (promoteLoop alpha timeMs 1 server acc).2.h r = acc.h r) ∧
    (∀ r ∈ (promoteLoop alpha timeMs 1 server acc).1.queue, P r) ∧
    (∀ r ∈ (promoteLoop alpha timeMs 1 server acc).1.inflight, P r) := by
  simp only [promoteLoop]
  split_ifs with hcond
  · cases hqm : server.queue with
    | nil => simp [hqm] at hcond
    | cons rid restQ =>
      try rw [hqm]
      dsimp only
      have hPrid : P rid := hq rid (by rw [hqm]; exact List.mem_cons_self rid restQ)
      refine ⟨?_, ?_, ?_⟩
      · intro r hr
        exact hset_frame _ _ _ _ (fun he => hr (he ▸ hPrid))
      · intro r hr
        refine hq r ?_
        rw [hqm]
        exact List.mem_cons_of_mem _ hr
      · intro r hr
        rcases List.mem_append.mp hr with hin | hin
        · exact hi r hin
        · exact (List.mem_singleton.mp hin) ▸ hPrid
  · exact ⟨fun _ _ => rfl, hq, hi⟩

/-- The promotion loop writes the store only at promoted ids. -/
theorem promoteLoop_frame (P : ℕ → Prop) (alpha timeMs : ℚ) (fuel : ℕ) :
    ∀ (server : ServerState) (acc : SrvAcc),
      (∀ r ∈ server.queue, P r) → (∀ r ∈ server.inflight, P r) →
      (∀ r, ¬ P r → (promoteLoop alpha timeMs fuel server acc).2.h r = acc.h r) ∧
      (∀ r ∈ (promoteLoop alpha timeMs fuel server acc).1.queue, P r) ∧
      (∀ r ∈ (promoteLoop alpha timeMs fuel server acc).1.inflight, P r) := by
  induction fuel with
  | zero => intro server acc hq hi; exact ⟨fun _ _ => rfl, hq, hi⟩
  | succ n ih =>
    intro server acc hq hi
    rw [promoteLoop_unroll]
    obtain ⟨f1, q1, i1⟩ := promoteLoop_one_frame P alpha timeMs server acc hq hi
    obtain ⟨f2, q2, i2⟩ := ih (promoteLoop alpha timeMs 1 server acc).1
      (promoteLoop alpha timeMs 1 server acc).2 q1 i1
    refine ⟨?_, q2, i2⟩
    intro r hr
    rw [f2 r hr, f1 r hr]

/-- The progress loop leaves the server's queue untouched. -/
theorem progressLoop_queue (alpha timeMs dtMs : ℚ) (lst : List ℕ) :
    ∀ (server : ServerState) (still : List ℕ) (acc : SrvAcc),
      (progressLoop alpha timeMs dtMs lst server still acc).1.queue = server.queue := by
  induction lst with
  | nil => intro server still acc; rfl
  | cons rid rest ih =>
    intro server still acc
    simp only [progressLoop]
    split_ifs with hdone
    · rw [ih]
    · rw [ih]

/-- The progress loop does not move LB queue contents. -/
theorem progressLoop_lbIds (alpha timeMs dtMs : ℚ) (lst : List ℕ) :
    ∀ (server : ServerState) (still : List ℕ) (acc : SrvAcc),
      ((progressLoop alpha timeMs dtMs lst server still acc).2.2.loadBalancers).map
        (fun lb => lb.queue) = acc.loadBalancers.map (fun lb => lb.queue) := by
  induction lst with
  | nil => intro server still acc; rfl
  | cons rid rest ih =>
    intro server still acc
    simp only [progressLoop]
    split_ifs with hdone
    · rw [ih]
      dsimp only
      split
      · apply map_updateFirst_invariant
        intro x
        rfl
      · rfl
    · rw [ih]

/-- Single progress step: store writes only at the processed id. -/
theorem progressLoop_one_frame (P : ℕ → Prop) (alpha timeMs dtMs : ℚ) (rid : ℕ)
    (server : ServerState) (still : List ℕ) (acc : SrvAcc)
    (hPrid : P rid) (hstill : ∀ r ∈ still, P r) :
    (∀ r, ¬ P r →
      (progressLoop alpha timeMs dtMs [rid] server still acc).2.2.h r = acc.h r) ∧
    (∀ r ∈ (progressLoop alpha timeMs dtMs [rid] server still acc).2.1, P r) := by
  simp only [progressLoop]
  split_ifs with hdone
  · refine ⟨?_, hstill⟩
    intro r hr
    exact hset_frame _ _ _ _ (fun he => hr (he ▸ hPrid))
  · refine ⟨?_, ?_⟩
    · intro r hr
      exact hset_frame _ _ _ _ (fun he => hr (he ▸ hPrid))
    · intro r hr
      rcases List.mem_append.mp hr with hin | hin
      · exact hstill r hin
      · exact (List.mem_singleton.mp hin) ▸ hPrid

/-- The progress loop writes the store only at processed ids. -/
theorem progressLoop_frame (P : ℕ → Prop) (alpha timeMs dtMs : ℚ) (lst : List ℕ) :
    ∀ (server : ServerState) (still : List ℕ) (acc : SrvAcc),
      (∀ r ∈ lst, P r) → (∀ r ∈ still, P r) →
      (∀ r, ¬ P r →
        (progressLoop alpha timeMs dtMs lst server still acc).2.2.h r = acc.h r) ∧
      (∀ r ∈ (progressLoop alpha timeMs dtMs lst server still acc).2.1, P r) := by
  induction lst with
  | nil => intro server still acc hlst hstill; exact ⟨fun _ _ => rfl, hstill⟩
  | cons rid rest ih =>
    intro server still acc hlst hstill
    rw [progressLoop_unroll]
    have hPrid : P rid := hlst rid (List.mem_cons_self rid rest)
    obtain ⟨f1, s1⟩ := progressLoop_one_frame P alpha timeMs dtMs rid server still acc
      hPrid hstill
    obtain ⟨f2, s2⟩ := ih (progressLoop alpha timeMs dtMs [rid] server still acc).1
      (progressLoop alpha timeMs dtMs [rid] server still acc).2.1
      (progressLoop alpha timeMs dtMs [rid] server still acc).2.2
      (fun r hr => hlst r (List.mem_cons_of_mem _ hr)) s1
    refine ⟨?_, s2⟩
    intro r hr
    rw [f2 r hr, f1 r hr]

/-- The per-server pass writes the store only at container ids and keeps all
container ids inside `P`. -/
theorem serversPhase_frame (P : ℕ → Prop) (alpha timeMs dtMs : ℚ)
    (servers : List ServerState) :
    ∀ (acc : SrvAcc),
      (∀ sv ∈ servers, (∀ x ∈ sv.queue, P x) ∧ (∀ x ∈ sv.inflight, P x)) →
      (∀ x, ¬ P x → (serversPhase alpha timeMs dtMs servers acc).2.h x = acc.h x) ∧
      (∀ sv ∈ (serversPhase alpha timeMs dtMs servers acc).1,
        (∀ x ∈ sv.queue, P x) ∧ (∀ x ∈ sv.inflight, P x)) ∧
      ((serversPhase alpha timeMs dtMs servers acc).2.loadBalancers).map
        (fun lb => lb.queue) = acc.loadBalancers.map (fun lb => lb.queue) := by
  induction servers with
  | nil =>
    intro acc hsv
    exact ⟨fun _ _ => rfl,
      fun sv hsv2 => absurd hsv2 (List.not_mem_nil sv), rfl⟩
  | cons server rest ih =>
    intro acc hsv
    simp only [serversPhase]
    set p := promoteLoop alpha timeMs server.queue.length server acc with hpdef
    set q := progressLoop alpha timeMs dtMs p.1.inflight p.1 [] p.2 with hqdef
    set sr := serversPhase alpha timeMs dtMs rest q.2.2 with hsrdef
    have hhead := hsv server (List.mem_cons_self server rest)
    obtain ⟨pf, pq, pi⟩ := promoteLoop_frame P alpha timeMs server.queue.length
      server acc hhead.1 hhead.2
    rw [← hpdef] at pf pq pi
    obtain ⟨qf, qs⟩ := progressLoop_frame P alpha timeMs dtMs p.1.inflight p.1 [] p.2
      pi (fun x hx => absurd hx (List.not_mem_nil x))
    rw [← hqdef] at qf qs
    have hqueue := progressLoop_queue alpha timeMs dtMs p.1.inflight p.1 [] p.2
    rw [← hqdef] at hqueue
    have hlbq := progressLoop_lbIds alpha timeMs dtMs p.1.inflight p.1 [] p.2
    rw [← hqdef] at hlbq
    have hlbp := promoteLoop_lbs alpha timeMs server.queue.length server acc
    rw [← hpdef] at hlbp
    obtain ⟨rf, rg, rl⟩ := ih q.2.2 (fun sv hsv2 => hsv sv (List.mem_cons_of_mem _ hsv2))
    rw [← hsrdef] at rf rg rl
    refine ⟨?_, ?_, ?_⟩
    · intro x hx
      rw [rf x hx, qf x hx, pf x hx]
    · intro sv hsv2
      rcases List.mem_cons.mp hsv2 with he | hmem
      · subst he
        constructor
        · intro x hx
          dsimp only at hx
          rw [hqueue] at hx
          exact pq x hx
        · intro x hx
          dsimp only at hx
          exact qs x hx
      · exact rg sv hmem
    · rw [rl, hlbq, hlbp]

/-- A full step writes the store only at ids that are reachable from the
input state's containers or freshly allocated. -/
theorem stepSimulation_frame (P : ℕ → Prop) (h : Heap) (prev : SimulationState)
    (dtMs : ℚ) (hg : idsGood P prev)
    (hnext : ∀ rid, prev.nextRequestId ≤ rid → P rid) :
    ∀ rid, ¬ P rid → (stepSimulation h prev dtMs).1 rid = h rid := by
  obtain ⟨pf, pg, pn⟩ := preDrain_frame P h prev dtMs hg hnext
  obtain ⟨df, dg, dn⟩ := drainPhase_frame P (preDrain h prev dtMs).1 dtMs
    (preDrain h prev dtMs).2.1 (preDrain h prev dtMs).2.2 pg
  unfold stepSimulation
  dsimp only
  set pre := preDrain h prev dtMs with hpre
  set dr := drainPhase pre.1 dtMs pre.2.1 pre.2.2 with hdr
  obtain ⟨dg1, dg2, dg3⟩ := dg
  obtain ⟨sf, sg, sl⟩ := serversPhase_frame P dr.2.2.ewmaAlpha dr.2.2.timeMs dtMs
    dr.2.2.servers
    { h := dr.2.1, loadBalancers := dr.2.2.loadBalancers, totals := dr.2.2.totals,
      recentLatencies := dr.2.2.recentLatencies, recentLbWaits := dr.2.2.recentLbWaits,
      recentServerWaits := dr.2.2.recentServerWaits, log := dr.2.2.log }
    (fun sv hsv => ⟨dg2 sv hsv, dg3 sv hsv⟩)
  intro rid hnp
  rw [sf rid hnp]
  dsimp only
  rw [df rid hnp, pf rid hnp]

/-- C9 (amended): `stepSimulation` is not value-pure — it mutates the
`Request` objects reachable from its input (the counterexample shows a
repeated call on the same input diverging) — but over the explicit request
store the mutation is confined: every store entry whose id is neither held
in any container of the input state (LB admission queues, server queues,
in-flight lists) nor freshly allocated (`id < nextRequestId`) is returned
unchanged by a step. -/
theorem c9_frame_amended (h : Heap) (prev : SimulationState) (dtMs : ℚ)
    (rid : ℕ) (hnc : rid ∉ containerIds prev)
    (hlt : rid < prev.nextRequestId) :
    (stepSimulation h prev dtMs).1 rid = h rid := by
  refine stepSimulation_frame
    (fun x => x ∈ containerIds prev ∨ prev.nextRequestId ≤ x) h prev dtMs
    ⟨?_, ?_, ?_⟩ ?_ rid ?_
  · intro lb hlb x hx
    exact Or.inl (lbQueue_mem_containerIds hlb hx)
  · intro sv hsv x hx
    exact Or.inl (srvQueue_mem_containerIds hsv hx)
  · intro sv hsv x hx
    exact Or.inl (srvInflight_mem_containerIds hsv hx)
  · intro x hxx
    exact Or.inr hxx
  · intro hor
    rcases hor with hin | hle
    · exact hnc hin
    · omega

/-- C9 witness: store slot 0 is untouched by a step of `state9`. -/
theorem c9_frame_witness :
    0 ∉ containerIds state9 ∧ 0 < state9.nextRequestId ∧
    (stepSimulation heap9 state9 10).1 0 = heap9 0 :=
  ⟨by decide, by decide,
    c9_frame_amended heap9 state9 10 0 (by decide) (by decide)⟩
